import Mathlib

/-!
# Verification of the compute-budget parser / sanitizer and the ingress scheduler

Shallow embedding of the transaction-ingress subsystems of this repository:

* `compute-budget-processor/src/lib.rs` — `InstructionDetails`,
  `get_instruction_details`, `parse_compute_budget_instructions`,
  `parse_builtin_instructions`, `sanitize_requested_heap_size`,
  `sanitize_and_convert_to_compute_budget_limits`;
* `runtime-transaction/src/compute_budget_instruction_details.rs` —
  `ComputeBudgetInstructionDetails::process_instruction`;
* `runtime-transaction/src/instruction_details.rs` — `InstructionDetails::try_from`
  and its sanitizer;
* `core/src/cost_tracker.rs` — `CostTracker`;
* `core/src/priority_flat_index.rs` — `Buffer::insert_batch` and
  `remove_batches_by_priority`;
* `runtime/src/prioritization_fee_cache.rs` — the block-entry bookkeeping of
  `PrioritizationFeeCache`;
* the priority-graph scheduler pass (modelled from the spec, its source is not
  part of this snapshot).

Machine integers (`u8`, `u32`, `u64`) are embedded as `Nat`; the saturating
operations used on consensus paths are embedded explicitly, capping at the
relevant width.  Pubkeys are opaque values, embedded as `Nat`.
-/

namespace Solana

/-! ## Constants

Modelled from the spec: the bit-exact constants of `ComputeBudgetLimits`
(`solana_compute_budget::compute_budget_limits`, a dependency whose source is
not part of this snapshot).  The spec pins `MIN_HEAP_FRAME_BYTES = 32 × 1024`,
`MAX_HEAP_FRAME_BYTES = 256 × 1024`, `MAX_CU_LIMIT = 1_400_000`,
`DEFAULT_INSTRUCTION_CU_LIMIT = 200_000`, `MAX_NUM_RECENT_BLOCKS = 150`, and
requires `MAX_LOADED_BYTES` to be the validator's `NonZero u32` constant
(64 MiB). -/

def MIN_HEAP_FRAME_BYTES : Nat := 32 * 1024

def MAX_HEAP_FRAME_BYTES : Nat := 256 * 1024

def MAX_COMPUTE_UNIT_LIMIT : Nat := 1400000

def DEFAULT_INSTRUCTION_COMPUTE_UNIT_LIMIT : Nat := 200000

def MAX_LOADED_ACCOUNTS_DATA_SIZE_BYTES : Nat := 64 * 1024 * 1024

def MAX_NUM_RECENT_BLOCKS : Nat := 150

def U32_MAX : Nat := 2 ^ 32 - 1

/-- `u32` saturating addition (`saturating_add` / `saturating_add_assign!`). -/
def u32SatAdd (a b : Nat) : Nat := min (a + b) U32_MAX

/-- `u32` saturating subtraction; `Nat` subtraction already saturates at 0. -/
def u32SatSub (a b : Nat) : Nat := a - b

/-- `u32` saturating multiplication (`saturating_mul`). -/
def u32SatMul (a b : Nat) : Nat := min (a * b) U32_MAX

/-- Opaque 32-byte program / account identifier, embedded as an opaque `Nat`. -/
abbrev Pubkey := Nat

/-! ## Wire format of compute-budget instructions

Modelled from the spec: the enum `ComputeBudgetInstruction` and its borsh
deserializer `try_from_slice_unchecked` live in the sdk, whose source is not
part of this snapshot.  The spec fixes the wire format: a little-endian
discriminant byte followed by the payload of §4.B's table
(`RequestHeapFrame: u32`, `SetComputeUnitLimit: u32`, `SetComputeUnitPrice:
u64`, `SetLoadedAccountsDataSizeLimit: u32`); decoding tolerates trailing
bytes (length-unchecked) and unknown discriminants are an
invalid-instruction-data error.  Discriminants are assigned in the table's
order starting at 1 (discriminant 0 is the deprecated unused variant, which
decodes as unknown). -/

inductive ComputeBudgetInstruction where
  | RequestHeapFrame (bytes : Nat)
  | SetComputeUnitLimit (units : Nat)
  | SetComputeUnitPrice (microLamports : Nat)
  | SetLoadedAccountsDataSizeLimit (bytes : Nat)
deriving DecidableEq, Repr

/-- Little-endian byte-sequence value. -/
def leBytesToNat : List Nat → Nat
  | [] => 0
  | b :: rest => b % 256 + 256 * leBytesToNat rest

/-- Little-endian encoding of a `u32` (4 bytes). -/
def u32le (n : Nat) : List Nat :=
  [n % 256, n / 256 % 256, n / 2 ^ 16 % 256, n / 2 ^ 24 % 256]

/-- Little-endian encoding of a `u64` (8 bytes). -/
def u64le (n : Nat) : List Nat :=
  [n % 256, n / 256 % 256, n / 2 ^ 16 % 256, n / 2 ^ 24 % 256,
   n / 2 ^ 32 % 256, n / 2 ^ 40 % 256, n / 2 ^ 48 % 256, n / 2 ^ 56 % 256]

/-- Length-unchecked borsh decoding of `instruction.data` into
`ComputeBudgetInstruction` (`try_from_slice_unchecked`): trailing bytes are
tolerated, missing payload bytes or unknown discriminants fail. -/
def tryFromSliceUnchecked (data : List Nat) : Option ComputeBudgetInstruction :=
  match data with
  | [] => none
  | d :: payload =>
    if d % 256 = 1 then
      if 4 ≤ payload.length then
        some (.RequestHeapFrame (leBytesToNat (payload.take 4)))
      else none
    else if d % 256 = 2 then
      if 4 ≤ payload.length then
        some (.SetComputeUnitLimit (leBytesToNat (payload.take 4)))
      else none
    else if d % 256 = 3 then
      if 8 ≤ payload.length then
        some (.SetComputeUnitPrice (leBytesToNat (payload.take 8)))
      else none
    else if d % 256 = 4 then
      if 4 ≤ payload.length then
        some (.SetLoadedAccountsDataSizeLimit (leBytesToNat (payload.take 4)))
      else none
    else none

/-- `instruction.data` of a `RequestHeapFrame(bytes)` instruction. -/
def requestHeapFrameData (bytes : Nat) : List Nat := 1 :: u32le bytes

/-- `instruction.data` of a `SetComputeUnitLimit(units)` instruction. -/
def setComputeUnitLimitData (units : Nat) : List Nat := 2 :: u32le units

/-- `instruction.data` of a `SetComputeUnitPrice(microLamports)` instruction. -/
def setComputeUnitPriceData (microLamports : Nat) : List Nat := 3 :: u64le microLamports

/-- `instruction.data` of a `SetLoadedAccountsDataSizeLimit(bytes)` instruction. -/
def setLoadedAccountsDataSizeLimitData (bytes : Nat) : List Nat := 4 :: u32le bytes

/-! ## Error type (`TransactionError`, restricted to the variants this code emits) -/

inductive InstructionErrorKind where
  | InvalidInstructionData
deriving DecidableEq, Repr

inductive TransactionError where
  | InstructionError (index : Nat) (err : InstructionErrorKind)
  | DuplicateInstruction (index : Nat)
  | InvalidLoadedAccountsDataSizeLimit
deriving DecidableEq, Repr

/-! ## `InstructionDetails` (compute-budget-processor/src/lib.rs lines 18-33,
identical field-for-field to runtime-transaction/src/instruction_details.rs
lines 16-29).  Each `requested_*` slot stores `(instruction index, raw value)`. -/

structure InstructionDetails where
  requested_compute_unit_limit : Option (Nat × Nat) := none
  requested_compute_unit_price : Option (Nat × Nat) := none
  requested_heap_size : Option (Nat × Nat) := none
  requested_loaded_accounts_data_size_limit : Option (Nat × Nat) := none
  sum_builtin_compute_units : Nat := 0
  count_builtin_instructions : Nat := 0
  count_non_builtin_instructions : Nat := 0
  count_compute_budget_instructions : Nat := 0
deriving DecidableEq, Repr

/-- `ComputeBudgetLimits` (sanitizer output; the `NonZero u32`
`loaded_accounts_bytes` is embedded as a `Nat` whose positivity is proved). -/
structure ComputeBudgetLimits where
  updated_heap_bytes : Nat
  compute_unit_limit : Nat
  compute_unit_price : Nat
  loaded_accounts_bytes : Nat
deriving DecidableEq, Repr

/-- The four compute-budget request kinds, used to talk about "the same
variant" of two decoded instructions. -/
inductive CBVariant where
  | heap
  | cuLimit
  | cuPrice
  | loadedSize
deriving DecidableEq, Repr

def ComputeBudgetInstruction.variant : ComputeBudgetInstruction → CBVariant
  | .RequestHeapFrame _ => .heap
  | .SetComputeUnitLimit _ => .cuLimit
  | .SetComputeUnitPrice _ => .cuPrice
  | .SetLoadedAccountsDataSizeLimit _ => .loadedSize

/-- The `requested_*` slot of `InstructionDetails` holding a given variant. -/
def InstructionDetails.slot (d : InstructionDetails) : CBVariant → Option (Nat × Nat)
  | .heap => d.requested_heap_size
  | .cuLimit => d.requested_compute_unit_limit
  | .cuPrice => d.requested_compute_unit_price
  | .loadedSize => d.requested_loaded_accounts_data_size_limit

/-- `sanitize_requested_heap_size` (compute-budget-processor/src/lib.rs line 185;
byte-identical copies exist in both runtime-transaction parsers). -/
def sanitize_requested_heap_size (bytes : Nat) : Bool :=
  MIN_HEAP_FRAME_BYTES ≤ bytes && bytes ≤ MAX_HEAP_FRAME_BYTES && bytes % 1024 = 0

namespace ComputeBudgetProcessor

/-- `parse_compute_budget_instructions` (compute-budget-processor/src/lib.rs
lines 131-183).  `cbId` stands for the compute-budget program id
(`compute_budget::check_id`).  The count is incremented before decoding, as in
the source. -/
def parse_compute_budget_instructions (cbId : Pubkey) (d : InstructionDetails)
    (index : Nat) (program_id : Pubkey) (data : List Nat) :
    Except TransactionError InstructionDetails :=
  if program_id = cbId then
    let d :=
      { d with count_compute_budget_instructions :=
          u32SatAdd d.count_compute_budget_instructions 1 }
    match tryFromSliceUnchecked data with
    | some (.RequestHeapFrame bytes) =>
      if d.requested_heap_size.isSome then
        .error (.DuplicateInstruction index)
      else if sanitize_requested_heap_size bytes then
        .ok { d with requested_heap_size := some (index, bytes) }
      else
        .error (.InstructionError index .InvalidInstructionData)
    | some (.SetComputeUnitLimit units) =>
      if d.requested_compute_unit_limit.isSome then
        .error (.DuplicateInstruction index)
      else
        .ok { d with requested_compute_unit_limit := some (index, units) }
    | some (.SetComputeUnitPrice microLamports) =>
      if d.requested_compute_unit_price.isSome then
        .error (.DuplicateInstruction index)
      else
        .ok { d with requested_compute_unit_price := some (index, microLamports) }
    | some (.SetLoadedAccountsDataSizeLimit bytes) =>
      if d.requested_loaded_accounts_data_size_limit.isSome then
        .error (.DuplicateInstruction index)
      else
        .ok { d with requested_loaded_accounts_data_size_limit := some (index, bytes) }
    | none =>
      .error (.InstructionError index .InvalidInstructionData)
  else
    .ok d

/-- `parse_builtin_instructions` (compute-budget-processor/src/lib.rs lines
112-129).  `builtinCost` stands for `BUILTIN_INSTRUCTION_COSTS.get`; the
function never fails. -/
def parse_builtin_instructions (builtinCost : Pubkey → Option Nat)
    (d : InstructionDetails) (program_id : Pubkey) : InstructionDetails :=
  match builtinCost program_id with
  | some c =>
    { d with
      sum_builtin_compute_units := u32SatAdd d.sum_builtin_compute_units c,
      count_builtin_instructions := u32SatAdd d.count_builtin_instructions 1 }
  | none =>
    { d with count_non_builtin_instructions :=
      u32SatAdd d.count_non_builtin_instructions 1 }

/-- Enumerated scan of `get_instruction_details` (compute-budget-processor/src/
lib.rs lines 94-110); `i` is the running enumeration counter, stored as
`i as u8`, hence `i % 256`. -/
def getInstructionDetailsGo (builtinCost : Pubkey → Option Nat) (cbId : Pubkey) :
    List (Pubkey × List Nat) → Nat → InstructionDetails →
    Except TransactionError InstructionDetails
  | [], _, d => .ok d
  | (program_id, data) :: rest, i, d =>
    match parse_compute_budget_instructions cbId d (i % 256) program_id data with
    | .error e => .error e
    | .ok d =>
      getInstructionDetailsGo builtinCost cbId rest (i + 1)
        (parse_builtin_instructions builtinCost d program_id)

/-- `get_instruction_details` (compute-budget-processor/src/lib.rs lines
94-110): one forward pass over `(program_id, instruction)` pairs starting from
`InstructionDetails::default()`. -/
def get_instruction_details (builtinCost : Pubkey → Option Nat) (cbId : Pubkey)
    (instructions : List (Pubkey × List Nat)) :
    Except TransactionError InstructionDetails :=
  getInstructionDetailsGo builtinCost cbId instructions 0 {}

/-- `InstructionDetails::sanitize_and_convert_to_compute_budget_limits`
(compute-budget-processor/src/lib.rs lines 36-86).  The heap request is not
re-validated here; the loaded-accounts size is the only failure source. -/
def sanitize_and_convert_to_compute_budget_limits (d : InstructionDetails) :
    Except TransactionError ComputeBudgetLimits :=
  let updated_heap_bytes :=
    min (match d.requested_heap_size with
          | some (_, requested_heap_size) => requested_heap_size
          | none => MIN_HEAP_FRAME_BYTES)
      MAX_HEAP_FRAME_BYTES
  let compute_unit_limit :=
    min (match d.requested_compute_unit_limit with
          | some (_, requested_compute_unit_limit) => requested_compute_unit_limit
          | none =>
            u32SatMul
              (u32SatSub
                (u32SatAdd d.count_builtin_instructions d.count_non_builtin_instructions)
                d.count_compute_budget_instructions)
              DEFAULT_INSTRUCTION_COMPUTE_UNIT_LIMIT)
      MAX_COMPUTE_UNIT_LIMIT
  let compute_unit_price :=
    match d.requested_compute_unit_price with
    | some (_, requested_compute_unit_price) => requested_compute_unit_price
    | none => 0
  match d.requested_loaded_accounts_data_size_limit with
  | some (_, requested) =>
    if requested = 0 then
      .error .InvalidLoadedAccountsDataSizeLimit
    else
      .ok { updated_heap_bytes, compute_unit_limit, compute_unit_price,
            loaded_accounts_bytes := min requested MAX_LOADED_ACCOUNTS_DATA_SIZE_BYTES }
  | none =>
    .ok { updated_heap_bytes, compute_unit_limit, compute_unit_price,
          loaded_accounts_bytes :=
            min MAX_LOADED_ACCOUNTS_DATA_SIZE_BYTES MAX_LOADED_ACCOUNTS_DATA_SIZE_BYTES }

end ComputeBudgetProcessor

/-! ## `ComputeBudgetInstructionDetails`
(runtime-transaction/src/compute_budget_instruction_details.rs) -/

structure ComputeBudgetInstructionDetails where
  requested_compute_unit_limit : Option (Nat × Nat) := none
  requested_compute_unit_price : Option (Nat × Nat) := none
  requested_heap_size : Option (Nat × Nat) := none
  requested_loaded_accounts_data_size_limit : Option (Nat × Nat) := none
  count_compute_budget_instructions : Nat := 0
deriving DecidableEq, Repr

/-- The `requested_*` slot of `ComputeBudgetInstructionDetails` holding a given
variant. -/
def ComputeBudgetInstructionDetails.slot (d : ComputeBudgetInstructionDetails) :
    CBVariant → Option (Nat × Nat)
  | .heap => d.requested_heap_size
  | .cuLimit => d.requested_compute_unit_limit
  | .cuPrice => d.requested_compute_unit_price
  | .loadedSize => d.requested_loaded_accounts_data_size_limit

/-- `ComputeBudgetInstructionDetails::process_instruction`
(runtime-transaction/src/compute_budget_instruction_details.rs lines 26-72).
Unlike the compute-budget-processor variant, the count is incremented after a
successful dispatch. -/
def ComputeBudgetInstructionDetails.process_instruction (cbId : Pubkey)
    (d : ComputeBudgetInstructionDetails) (index : Nat) (program_id : Pubkey)
    (data : List Nat) : Except TransactionError ComputeBudgetInstructionDetails :=
  if program_id = cbId then
    match tryFromSliceUnchecked data with
    | some (.RequestHeapFrame bytes) =>
      if d.requested_heap_size.isSome then
        .error (.DuplicateInstruction index)
      else if sanitize_requested_heap_size bytes then
        .ok { d with
              requested_heap_size := some (index, bytes),
              count_compute_budget_instructions :=
                u32SatAdd d.count_compute_budget_instructions 1 }
      else
        .error (.InstructionError index .InvalidInstructionData)
    | some (.SetComputeUnitLimit units) =>
      if d.requested_compute_unit_limit.isSome then
        .error (.DuplicateInstruction index)
      else
        .ok { d with
              requested_compute_unit_limit := some (index, units),
              count_compute_budget_instructions :=
                u32SatAdd d.count_compute_budget_instructions 1 }
    | some (.SetComputeUnitPrice microLamports) =>
      if d.requested_compute_unit_price.isSome then
        .error (.DuplicateInstruction index)
      else
        .ok { d with
              requested_compute_unit_price := some (index, microLamports),
              count_compute_budget_instructions :=
                u32SatAdd d.count_compute_budget_instructions 1 }
    | some (.SetLoadedAccountsDataSizeLimit bytes) =>
      if d.requested_loaded_accounts_data_size_limit.isSome then
        .error (.DuplicateInstruction index)
      else
        .ok { d with
              requested_loaded_accounts_data_size_limit := some (index, bytes),
              count_compute_budget_instructions :=
                u32SatAdd d.count_compute_budget_instructions 1 }
    | none =>
      .error (.InstructionError index .InvalidInstructionData)
  else
    .ok d

/-! ## `InstructionDetails::try_from` and its sanitizer
(runtime-transaction/src/instruction_details.rs) -/

namespace RuntimeTransaction

/-- Modelled from the spec: `InstructionDetails::process_compute_budget_instruction`
is called by `InstructionDetails::try_from`
(runtime-transaction/src/instruction_details.rs line 39) but its body is not
part of this snapshot.  Per spec §4.B the compute-budget step decodes the data
with the length-unchecked deserializer, fails with `DuplicateInstruction(index)`
when the decoded variant's slot is already populated, validates heap requests
(`bytes ∈ [MIN_HEAP, MAX_HEAP] ∧ bytes mod 1024 = 0`, else
`InstructionError(index, InvalidInstructionData)`), fails the same way on
decode failure, and on success stores the slot and increments
`count_compute_budget_instructions`; this matches its in-tree sibling
`ComputeBudgetInstructionDetails::process_instruction`. -/
def process_compute_budget_instruction (cbId : Pubkey) (d : InstructionDetails)
    (index : Nat) (program_id : Pubkey) (data : List Nat) :
    Except TransactionError InstructionDetails :=
  if program_id = cbId then
    match tryFromSliceUnchecked data with
    | some (.RequestHeapFrame bytes) =>
      if d.requested_heap_size.isSome then
        .error (.DuplicateInstruction index)
      else if sanitize_requested_heap_size bytes then
        .ok { d with
              requested_heap_size := some (index, bytes),
              count_compute_budget_instructions :=
                u32SatAdd d.count_compute_budget_instructions 1 }
      else
        .error (.InstructionError index .InvalidInstructionData)
    | some (.SetComputeUnitLimit units) =>
      if d.requested_compute_unit_limit.isSome then
        .error (.DuplicateInstruction index)
      else
        .ok { d with
              requested_compute_unit_limit := some (index, units),
              count_compute_budget_instructions :=
                u32SatAdd d.count_compute_budget_instructions 1 }
    | some (.SetComputeUnitPrice microLamports) =>
      if d.requested_compute_unit_price.isSome then
        .error (.DuplicateInstruction index)
      else
        .ok { d with
              requested_compute_unit_price := some (index, microLamports),
              count_compute_budget_instructions :=
                u32SatAdd d.count_compute_budget_instructions 1 }
    | some (.SetLoadedAccountsDataSizeLimit bytes) =>
      if d.requested_loaded_accounts_data_size_limit.isSome then
        .error (.DuplicateInstruction index)
      else
        .ok { d with
              requested_loaded_accounts_data_size_limit := some (index, bytes),
              count_compute_budget_instructions :=
                u32SatAdd d.count_compute_budget_instructions 1 }
    | none =>
      .error (.InstructionError index .InvalidInstructionData)
  else
    .ok d

/-- Modelled from the spec: `InstructionDetails::process_builtin_instruction`
is called by `InstructionDetails::try_from`
(runtime-transaction/src/instruction_details.rs line 44) but its body is not
part of this snapshot.  Per spec §4.B it looks the program id up in the
builtin registry, adds its cost saturating and increments
`count_builtin_instructions` on a hit, else increments
`count_non_builtin_instructions`; this matches its in-tree sibling
`BuiltinInstructionDetails::process_instruction`. -/
def process_builtin_instruction (builtinCost : Pubkey → Option Nat)
    (d : InstructionDetails) (program_id : Pubkey) : InstructionDetails :=
  match builtinCost program_id with
  | some c =>
    { d with
      sum_builtin_compute_units := u32SatAdd d.sum_builtin_compute_units c,
      count_builtin_instructions := u32SatAdd d.count_builtin_instructions 1 }
  | none =>
    { d with count_non_builtin_instructions :=
        u32SatAdd d.count_non_builtin_instructions 1 }

/-- Scan of `InstructionDetails::try_from`
(runtime-transaction/src/instruction_details.rs lines 32-51).  `maybeBuiltin`
stands for the `MAYBE_BUILTIN_KEY[program_id.as_ref()[0]]` first-byte filter:
when it is false, the instruction is counted non-builtin and the compute-budget
step is skipped. -/
def tryFromGo (builtinCost : Pubkey → Option Nat) (maybeBuiltin : Pubkey → Bool)
    (cbId : Pubkey) :
    List (Pubkey × List Nat) → Nat → InstructionDetails →
    Except TransactionError InstructionDetails
  | [], _, d => .ok d
  | (program_id, data) :: rest, i, d =>
    if maybeBuiltin program_id then
      match process_compute_budget_instruction cbId d (i % 256) program_id data with
      | .error e => .error e
      | .ok d =>
        tryFromGo builtinCost maybeBuiltin cbId rest (i + 1)
          (process_builtin_instruction builtinCost d program_id)
    else
      tryFromGo builtinCost maybeBuiltin cbId rest (i + 1)
        { d with count_non_builtin_instructions :=
            u32SatAdd d.count_non_builtin_instructions 1 }

/-- `InstructionDetails::try_from`
(runtime-transaction/src/instruction_details.rs lines 32-51). -/
def tryFrom (builtinCost : Pubkey → Option Nat) (maybeBuiltin : Pubkey → Bool)
    (cbId : Pubkey) (instructions : List (Pubkey × List Nat)) :
    Except TransactionError InstructionDetails :=
  tryFromGo builtinCost maybeBuiltin cbId instructions 0 {}

/-- `InstructionDetails::num_non_compute_budget_instructions`
(runtime-transaction/src/instruction_details.rs lines 113-117). -/
def num_non_compute_budget_instructions (d : InstructionDetails) : Nat :=
  u32SatSub
    (u32SatAdd d.count_builtin_instructions d.count_non_builtin_instructions)
    d.count_compute_budget_instructions

/-- `InstructionDetails::sanitize_and_convert_to_compute_budget_limits`
(runtime-transaction/src/instruction_details.rs lines 53-107).  Unlike the
compute-budget-processor variant, a stored heap request is re-validated here
and rejected with `InstructionError(stored index, InvalidInstructionData)`. -/
def sanitize_and_convert_to_compute_budget_limits (d : InstructionDetails) :
    Except TransactionError ComputeBudgetLimits :=
  match d.requested_heap_size with
  | some (index, requested_heap_size) =>
    if sanitize_requested_heap_size requested_heap_size then
      sanitizeRest d (min requested_heap_size MAX_HEAP_FRAME_BYTES)
    else
      .error (.InstructionError index .InvalidInstructionData)
  | none => sanitizeRest d (min MIN_HEAP_FRAME_BYTES MAX_HEAP_FRAME_BYTES)
where
  /-- The straight-line tail of the sanitizer after the heap branch. -/
  sanitizeRest (d : InstructionDetails) (updated_heap_bytes : Nat) :
      Except TransactionError ComputeBudgetLimits :=
    let compute_unit_limit :=
      min (match d.requested_compute_unit_limit with
            | some (_, requested_compute_unit_limit) => requested_compute_unit_limit
            | none =>
              u32SatMul (num_non_compute_budget_instructions d)
                DEFAULT_INSTRUCTION_COMPUTE_UNIT_LIMIT)
        MAX_COMPUTE_UNIT_LIMIT
    let compute_unit_price :=
      match d.requested_compute_unit_price with
      | some (_, requested_compute_unit_price) => requested_compute_unit_price
      | none => 0
    match d.requested_loaded_accounts_data_size_limit with
    | some (_, requested) =>
      if requested = 0 then
        .error .InvalidLoadedAccountsDataSizeLimit
      else
        .ok { updated_heap_bytes, compute_unit_limit, compute_unit_price,
              loaded_accounts_bytes := min requested MAX_LOADED_ACCOUNTS_DATA_SIZE_BYTES }
    | none =>
      .ok { updated_heap_bytes, compute_unit_limit, compute_unit_price,
            loaded_accounts_bytes :=
              min MAX_LOADED_ACCOUNTS_DATA_SIZE_BYTES MAX_LOADED_ACCOUNTS_DATA_SIZE_BYTES }

end RuntimeTransaction

/-! ## `CostTracker` (core/src/cost_tracker.rs)

The `HashMap<Pubkey, u32>` of per-account costs is embedded as an association
list with unique keys in source usage; `get` is `List.lookup`. -/

structure CostTracker where
  chain_max_cost : Nat
  package_max_cost : Nat
  chained_costs : List (Pubkey × Nat)
  package_cost : Nat
deriving DecidableEq, Repr

/-- `CostTracker::new` (core/src/cost_tracker.rs lines 14-22).  The
`assert!(chain_max <= package_max)` panic is embedded as `none`. -/
def CostTracker.new (chain_max package_max : Nat) : Option CostTracker :=
  if chain_max ≤ package_max then
    some { chain_max_cost := chain_max, package_max_cost := package_max,
           chained_costs := [], package_cost := 0 }
  else
    none

/-- The per-account loop of `would_exceed_limit`
(core/src/cost_tracker.rs lines 36-47). -/
def CostTracker.wouldExceedChainLimit (t : CostTracker) (cost : Nat) :
    List Pubkey → Bool
  | [] => false
  | account_key :: rest =>
    match t.chained_costs.lookup account_key with
    | some chained_cost =>
      if t.chain_max_cost < chained_cost + cost then true
      else t.wouldExceedChainLimit cost rest
    | none => t.wouldExceedChainLimit cost rest

/-- `CostTracker::would_exceed_limit` (core/src/cost_tracker.rs lines 24-50). -/
def CostTracker.would_exceed_limit (t : CostTracker) (keys : List Pubkey)
    (cost : Nat) : Bool :=
  if t.package_max_cost < t.package_cost + cost then true
  else if t.chain_max_cost < cost then true
  else t.wouldExceedChainLimit cost keys

/-! ## `PrioritizationFeeCache` block-entry bookkeeping
(runtime/src/prioritization_fee_cache.rs)

The cache's `HashMap<Slot, Arc<PrioritizationFeeEntry>>` is embedded as a list
of `(slot, sequence_number)` pairs; the per-entry fee payload is irrelevant to
the eviction bookkeeping.  `current_sequence_number` is initialised to 0 and —
in this snapshot — never incremented: the `fetch_add` in
`get_prioritization_fee` is commented out (lines 193-196) and every new entry
is created with `sequence_number = 1`. -/

abbrev FeeCacheState := List (Nat × Nat)

/-- The constant value `self.current_sequence_number` always holds in this
snapshot (`AtomicU64::default()`, never incremented). -/
def feeCacheCurrentSequenceNumber : Nat := 0

/-- `PrioritizationFeeCache::get_prioritization_fee`
(runtime/src/prioritization_fee_cache.rs lines 185-206): return the slot's
entry, creating it with `sequence_number = 1` when absent. -/
def feeCacheGetPrioritizationFee (cache : FeeCacheState) (slot : Nat) :
    FeeCacheState :=
  if (cache.lookup slot).isSome then cache else cache ++ [(slot, 1)]

/-- `PrioritizationFeeCache::evict_old_blocks`
(runtime/src/prioritization_fee_cache.rs lines 297-313): retain entries with
`current_sequence_number.saturating_sub(sequence_number) <= max_age`. -/
def feeCacheEvictOldBlocks (cache : FeeCacheState) (max_age : Nat) :
    FeeCacheState :=
  cache.filter (fun e => feeCacheCurrentSequenceNumber - e.2 ≤ max_age)

/-- `PrioritizationFeeCache::finalize_priority_fee` followed by the
finalizing thread's `BankFrozen` handling
(runtime/src/prioritization_fee_cache.rs lines 249-260 and 333-349): evict old
blocks with `MAX_NUM_RECENT_BLOCKS`, then look the slot's entry up (creating it
when absent) to mark it finalized. -/
def feeCacheFinalizePriorityFee (cache : FeeCacheState) (slot : Nat) :
    FeeCacheState :=
  feeCacheGetPrioritizationFee (feeCacheEvictOldBlocks cache MAX_NUM_RECENT_BLOCKS) slot

/-! ## Priority-flat buffer (core/src/priority_flat_index.rs)

A `Packet` carries its priority, its key in the owning batch's
`HashMap<usize, Rc<Packet>>`, and — standing for the `Weak<RefCell<Batch>>`
back-reference — the id of its owning batch.  A `Batch` is its packet list, a
`Buffer` the `VecDeque` of `(batch id, batch)`, and the min-max heap `Index` is
embedded as the list of its packets, with `pop_min` removing a minimal
element. -/

structure FlatPacket where
  priority : Nat
  pktIndex : Nat
  batchId : Nat
deriving DecidableEq, Repr

abbrev FlatBatch := List FlatPacket

abbrev FlatBuffer := List (Nat × FlatBatch)

/-- `MinMaxHeap::pop_min`: remove and return a minimum-priority packet.  Ties
are resolved towards the front; the heap's actual tie order is immaterial to
every property proved below. -/
def heapPopMin : List FlatPacket → Option (FlatPacket × List FlatPacket)
  | [] => none
  | p :: rest =>
    match heapPopMin rest with
    | none => some (p, [])
    | some (q, qrest) =>
      if p.priority ≤ q.priority then some (p, rest) else some (q, p :: qrest)

/-- Remove packet `pkt` from its owning batch
(`batch.borrow_mut().packets.remove(&pkt.index)`), the batch being reached
through the packet's back-reference. -/
def removePacketFromBatch (buffer : FlatBuffer) (pkt : FlatPacket) : FlatBuffer :=
  buffer.map fun b =>
    if b.1 = pkt.batchId then
      (b.1, b.2.filter fun q => q.pktIndex ≠ pkt.pktIndex)
    else b

/-- Whether the batch owning `pkt` is now empty
(`batch.borrow().packets.is_empty()`). -/
def batchOfPacketIsEmpty (buffer : FlatBuffer) (pkt : FlatPacket) : Bool :=
  match buffer.find? (fun b => b.1 = pkt.batchId) with
  | some b => b.2.isEmpty
  | none => false

/-- Loop body of `Buffer::remove_batches_by_priority`
(core/src/priority_flat_index.rs lines 142-167): pop the heap's minimum,
remove that packet from its batch, count emptied batches, stop at
`num_batches_to_remove`; afterwards sweep empty batches out of the buffer.
The list of evicted packets is returned alongside as a ghost output.
Termination is by the shrinking index. -/
def removeBatchesGo (fuel : Nat) (buffer : FlatBuffer) (index : List FlatPacket)
    (num_batches_to_remove removed_batch_count : Nat)
    (evicted : List FlatPacket) :
    FlatBuffer × List FlatPacket × List FlatPacket :=
  match fuel with
  | 0 => (buffer.filter (fun b => ¬b.2.isEmpty), index, evicted)
  | fuel + 1 =>
    match heapPopMin index with
    | none => (buffer.filter (fun b => ¬b.2.isEmpty), index, evicted)
    | some (pkt, rest) =>
      let buffer' := removePacketFromBatch buffer pkt
      let evicted' := evicted ++ [pkt]
      if batchOfPacketIsEmpty buffer' pkt then
        if num_batches_to_remove ≤ removed_batch_count + 1 then
          (buffer'.filter (fun b => ¬b.2.isEmpty), rest, evicted')
        else
          removeBatchesGo fuel buffer' rest num_batches_to_remove
            (removed_batch_count + 1) evicted'
      else
        removeBatchesGo fuel buffer' rest num_batches_to_remove
          removed_batch_count evicted'

/-- `Buffer::remove_batches_by_priority`
(core/src/priority_flat_index.rs lines 142-167).  Each `while` iteration pops
one element off the heap, so `index.length` rounds of fuel are exactly the
loop's possible iterations. -/
def remove_batches_by_priority (buffer : FlatBuffer) (index : List FlatPacket)
    (num_batches_to_remove : Nat) :
    FlatBuffer × List FlatPacket × List FlatPacket :=
  removeBatchesGo index.length buffer index num_batches_to_remove 0 []

/-- `Buffer::insert_batch` (core/src/priority_flat_index.rs lines 82-102):
skip empty batches, push to the back, and on exceeding `batch_limit` drop the
excess by priority.  The caller (as `make_batch` does) has already pushed the
new batch's packets into `index`. -/
def insert_batch (buffer : FlatBuffer) (index : List FlatPacket)
    (batch_limit : Nat) (batch : Nat × FlatBatch) :
    FlatBuffer × List FlatPacket × List FlatPacket :=
  if batch.2.isEmpty then (buffer, index, [])
  else
    let buffer := buffer ++ [batch]
    let num_batches_to_remove := buffer.length - batch_limit
    if 0 < num_batches_to_remove then
      remove_batches_by_priority buffer index num_batches_to_remove
    else
      (buffer, index, [])

/-! ## Priority-graph scheduler pass

Modelled from the spec: the `PrioGraphScheduler` implementation is reached by
`core/benches/prio_graph_scheduler.rs` through
`banking_stage::transaction_scheduler`, whose source is not part of this
snapshot.  Spec §4.G: one `schedule` pass builds a priority-ordered DAG over
the window (an edge from the last writer-or-reader of an account to its next
writer, and from the last writer to each subsequent reader), then repeatedly
pops the highest-priority ready root and dispatches it; dispatching removes
the root's outgoing edges (step 5f), its account locks remain held for the
rest of the pass (step 5e), and a root whose accounts conflict with held locks
is left unschedulable with its subtree blocked (step 5c).  Transactions and
accounts are identified by `Nat` ids. -/

namespace Scheduler

structure SpecTx where
  txid : Nat
  priority : Nat
  writes : List Nat
  reads : List Nat
deriving DecidableEq, Repr

/-- All accounts a transaction locks. -/
def SpecTx.accounts (t : SpecTx) : List Nat := t.writes ++ t.reads

/-- Transient graph-construction state: per-account last writer, per-account
last writer-or-reader, and the accumulated edge list `(from txid, to txid)`.
Association lists are extended at the front, so `List.lookup` sees the most
recent binding. -/
structure GraphState where
  lastWriter : List (Nat × Nat) := []
  lastToucher : List (Nat × Nat) := []
  edges : List (Nat × Nat) := []

/-- Modelled from the spec (§4.G step 3): for each account `t` writes, add an
edge from the last writer-or-reader of that account, then record `t` as its
last writer (and last toucher).  Self-edges are not recorded. -/
def addWriteAccounts (txid : Nat) : List Nat → GraphState → GraphState
  | [], st => st
  | k :: ks, st =>
    let st1 :=
      match st.lastToucher.lookup k with
      | some u => if u ≠ txid then { st with edges := (u, txid) :: st.edges } else st
      | none => st
    addWriteAccounts txid ks
      { st1 with
        lastWriter := (k, txid) :: st1.lastWriter,
        lastToucher := (k, txid) :: st1.lastToucher }

/-- Modelled from the spec (§4.G step 3): for each account `t` reads, add an
edge from the last writer of that account, then record `t` as its last
toucher.  Self-edges are not recorded. -/
def addReadAccounts (txid : Nat) : List Nat → GraphState → GraphState
  | [], st => st
  | k :: ks, st =>
    let st1 :=
      match st.lastWriter.lookup k with
      | some u => if u ≠ txid then { st with edges := (u, txid) :: st.edges } else st
      | none => st
    addReadAccounts txid ks
      { st1 with lastToucher := (k, txid) :: st1.lastToucher }

/-- Process one transaction of the window during graph construction. -/
def graphStep (st : GraphState) (t : SpecTx) : GraphState :=
  addReadAccounts t.txid t.reads (addWriteAccounts t.txid t.writes st)

/-- Modelled from the spec (§4.G step 3): the conflict edges of the window,
visited in the order the window was popped from the container (descending
priority, stable). -/
def buildEdges (window : List SpecTx) : List (Nat × Nat) :=
  (window.foldl graphStep {}).edges

/-- The DAG's current roots: remaining transactions with no incoming edge. -/
def readyTxs (remaining : List SpecTx) (edges : List (Nat × Nat)) : List SpecTx :=
  remaining.filter fun t => edges.all fun e => e.2 ≠ t.txid

/-- Pop the highest-priority entry (front-biased on ties). -/
def pickHighestPriority : List SpecTx → Option SpecTx
  | [] => none
  | t :: rest =>
    match pickHighestPriority rest with
    | none => some t
    | some u => if t.priority < u.priority then some u else some t

/-- Whether a transaction's accounts conflict with the locks held by already
dispatched transactions of this pass. -/
def conflictsWithHeld (held : List Nat) (t : SpecTx) : Bool :=
  t.accounts.any fun k => held.contains k

/-- Modelled from the spec (§4.G step 5): the dispatch loop.  Each iteration
pops the highest-priority ready root; if its accounts conflict with held
locks it is left unschedulable (its outgoing edges stay, keeping its subtree
blocked), otherwise it is dispatched, its locks become held and its outgoing
edges are removed.  Each iteration consumes one remaining transaction, so
`window.length` rounds of fuel are exactly the loop's possible iterations.
Returns `(dispatched txids, unschedulable txids)`. -/
def dispatchGo :
    Nat → List SpecTx → List (Nat × Nat) → List Nat → List Nat → List Nat →
    List Nat × List Nat
  | 0, _, _, _, dispatched, unschedulable => (dispatched, unschedulable)
  | fuel + 1, remaining, edges, held, dispatched, unschedulable =>
    match pickHighestPriority (readyTxs remaining edges) with
    | none => (dispatched, unschedulable)
    | some t =>
      let remaining' := remaining.filter fun u => u.txid ≠ t.txid
      if conflictsWithHeld held t then
        dispatchGo fuel remaining' edges held dispatched (t.txid :: unschedulable)
      else
        dispatchGo fuel remaining' (edges.filter fun e => e.1 ≠ t.txid)
          (held ++ t.accounts) (t.txid :: dispatched) unschedulable

/-- Modelled from the spec (§4.G steps 3-5): one `schedule` pass over a
window, with the block-cost limits allowing every dispatch (the claim's
scenario). -/
def schedulePass (window : List SpecTx) : List Nat × List Nat :=
  dispatchGo window.length window (buildEdges window) [] [] []

end Scheduler

/-! ## Theorems -/

/-- The per-account loop of `would_exceed_limit` trips exactly on a recorded
account whose running cost plus the new cost exceeds the chain limit. -/
theorem wouldExceedChainLimit_iff (t : CostTracker) (cost : Nat)
    (keys : List Pubkey) :
    t.wouldExceedChainLimit cost keys = true ↔
      ∃ k ∈ keys, ∃ c, t.chained_costs.lookup k = some c ∧
        t.chain_max_cost < c + cost := by
  induction keys with
  | nil => simp [CostTracker.wouldExceedChainLimit]
  | cons k ks ih =>
    simp only [CostTracker.wouldExceedChainLimit]
    cases h : t.chained_costs.lookup k with
    | none =>
      simp only [ih, List.mem_cons]
      constructor
      · rintro ⟨a, ha, c, hc, hlt⟩
        exact ⟨a, Or.inr ha, c, hc, hlt⟩
      · rintro ⟨a, ha | ha, c, hc, hlt⟩
        · rw [ha] at hc; rw [hc] at h; cases h
        · exact ⟨a, ha, c, hc, hlt⟩
    | some c =>
      by_cases hc : t.chain_max_cost < c + cost
      · simp only [hc, if_true, true_iff]
        exact ⟨k, List.mem_cons_self k ks, c, h, hc⟩
      · simp only [hc, if_false, ih, List.mem_cons]
        constructor
        · rintro ⟨a, ha, c', hc', hlt⟩
          exact ⟨a, Or.inr ha, c', hc', hlt⟩
        · rintro ⟨a, ha | ha, c', hc', hlt⟩
          · rw [ha] at hc'; rw [hc'] at h; cases h
            exact absurd hlt hc
          · exact ⟨a, ha, c', hc', hlt⟩

/-- C6.  `would_exceed_limit(keys, cost)` returns true iff the package
limit would be exceeded, or the transaction alone exceeds the chain limit, or
some key in `keys` has a recorded per-account cost that plus `cost` exceeds
the chain limit; keys with no recorded cost contribute nothing beyond the
per-transaction check. -/
theorem claim_C6_would_exceed_limit (t : CostTracker) (keys : List Pubkey)
    (cost : Nat) :
    t.would_exceed_limit keys cost = true ↔
      (t.package_max_cost < t.package_cost + cost ∨
        t.chain_max_cost < cost ∨
        ∃ k ∈ keys, ∃ c, t.chained_costs.lookup k = some c ∧
          t.chain_max_cost < c + cost) := by
  unfold CostTracker.would_exceed_limit
  by_cases h1 : t.package_max_cost < t.package_cost + cost
  · simp [h1]
  · by_cases h2 : t.chain_max_cost < cost
    · simp [h1, h2]
    · simp [h1, h2, wouldExceedChainLimit_iff]

/-- C10.  `CostTracker::new(chain_max, package_max)` asserts
`chain_max <= package_max` (embedded: it succeeds exactly then), and every
successfully constructed tracker satisfies
`chain_max_cost <= package_max_cost`. -/
theorem claim_C10_new_invariant (chain_max package_max : Nat) :
    ((CostTracker.new chain_max package_max).isSome ↔ chain_max ≤ package_max) ∧
      ∀ t, CostTracker.new chain_max package_max = some t →
        t.chain_max_cost = chain_max ∧ t.package_max_cost = package_max ∧
          t.chain_max_cost ≤ t.package_max_cost := by
  unfold CostTracker.new
  by_cases h : chain_max ≤ package_max
  · refine ⟨by simp [h], ?_⟩
    intro t ht
    simp only [h, if_true, Option.some.injEq] at ht
    subst ht
    exact ⟨rfl, rfl, h⟩
  · refine ⟨by simp [h], ?_⟩
    intro t ht
    simp [h] at ht

theorem claim_C10_new_invariant_witness :
    (CostTracker.new 1 2).isSome ∧
      ∀ t, CostTracker.new 1 2 = some t →
        t.chain_max_cost ≤ t.package_max_cost :=
  ⟨(claim_C10_new_invariant 1 2).1.mpr (by decide),
   fun t ht => ((claim_C10_new_invariant 1 2).2 t ht).2.2⟩

set_option maxRecDepth 100000 in
/-- C8 (counter-evidence).  In this snapshot `evict_old_blocks` never evicts
anything — the retain condition is constantly true because
`current_sequence_number` is never incremented and every entry is created
with `sequence_number = 1` — so 151 `finalize_priority_fee` calls on distinct
slots leave `MAX_NUM_RECENT_BLOCKS + 1 = 151` entries in the cache,
contradicting the documented 150-block bound (and the file's own
`test_evict_old_blocks`). -/
theorem claim_C8_eviction_broken :
    (∀ (cache : FeeCacheState) (max_age : Nat),
        feeCacheEvictOldBlocks cache max_age = cache) ∧
      ((List.range (MAX_NUM_RECENT_BLOCKS + 1)).foldl
          feeCacheFinalizePriorityFee []).length = MAX_NUM_RECENT_BLOCKS + 1 := by
  constructor
  · intro cache max_age
    unfold feeCacheEvictOldBlocks feeCacheCurrentSequenceNumber
    simp
  · rfl

/-- Elimination for the compute-budget-processor sanitizer: a successful run
determines every field of the returned limits. -/
theorem cbp_sanitize_ok_elim {d : InstructionDetails} {limits : ComputeBudgetLimits}
    (hl : ComputeBudgetProcessor.sanitize_and_convert_to_compute_budget_limits d =
      .ok limits) :
    limits.updated_heap_bytes =
        min (match d.requested_heap_size with
              | some (_, h) => h
              | none => MIN_HEAP_FRAME_BYTES) MAX_HEAP_FRAME_BYTES ∧
      limits.compute_unit_limit =
        min (match d.requested_compute_unit_limit with
              | some (_, l) => l
              | none =>
                u32SatMul
                  (u32SatSub
                    (u32SatAdd d.count_builtin_instructions
                      d.count_non_builtin_instructions)
                    d.count_compute_budget_instructions)
                  DEFAULT_INSTRUCTION_COMPUTE_UNIT_LIMIT) MAX_COMPUTE_UNIT_LIMIT ∧
      limits.loaded_accounts_bytes ≤ MAX_LOADED_ACCOUNTS_DATA_SIZE_BYTES := by
  unfold ComputeBudgetProcessor.sanitize_and_convert_to_compute_budget_limits at hl
  cases hv : d.requested_loaded_accounts_data_size_limit with
  | some p =>
    obtain ⟨i, v⟩ := p
    by_cases hv0 : v = 0
    · subst hv0
      simp [hv] at hl
    · simp only [hv, if_neg hv0, Except.ok.injEq] at hl
      subst hl
      exact ⟨rfl, rfl, Nat.min_le_right _ _⟩
  | none =>
    simp only [hv, Except.ok.injEq] at hl
    subst hl
    exact ⟨rfl, rfl, Nat.min_le_right _ _⟩

/-- Elimination for the straight-line tail of the runtime-transaction
sanitizer. -/
theorem rt_sanitizeRest_ok_elim {d : InstructionDetails} {hb : Nat}
    {limits : ComputeBudgetLimits}
    (hl : RuntimeTransaction.sanitize_and_convert_to_compute_budget_limits.sanitizeRest
      d hb = .ok limits) :
    limits.updated_heap_bytes = hb ∧
      limits.compute_unit_limit =
        min (match d.requested_compute_unit_limit with
              | some (_, l) => l
              | none =>
                u32SatMul (RuntimeTransaction.num_non_compute_budget_instructions d)
                  DEFAULT_INSTRUCTION_COMPUTE_UNIT_LIMIT) MAX_COMPUTE_UNIT_LIMIT ∧
      limits.loaded_accounts_bytes ≤ MAX_LOADED_ACCOUNTS_DATA_SIZE_BYTES := by
  unfold RuntimeTransaction.sanitize_and_convert_to_compute_budget_limits.sanitizeRest at hl
  cases hv : d.requested_loaded_accounts_data_size_limit with
  | some p =>
    obtain ⟨i, v⟩ := p
    by_cases hv0 : v = 0
    · subst hv0
      simp [hv] at hl
    · simp only [hv, if_neg hv0, Except.ok.injEq] at hl
      subst hl
      exact ⟨rfl, rfl, Nat.min_le_right _ _⟩
  | none =>
    simp only [hv, Except.ok.injEq] at hl
    subst hl
    exact ⟨rfl, rfl, Nat.min_le_right _ _⟩

/-- A successful run of the runtime-transaction sanitizer factors through its
tail, with a heap value clamped to `MAX_HEAP_FRAME_BYTES`. -/
theorem rt_sanitize_ok_elim {d : InstructionDetails} {limits : ComputeBudgetLimits}
    (hl : RuntimeTransaction.sanitize_and_convert_to_compute_budget_limits d =
      .ok limits) :
    ∃ hb, hb ≤ MAX_HEAP_FRAME_BYTES ∧
      RuntimeTransaction.sanitize_and_convert_to_compute_budget_limits.sanitizeRest
        d hb = .ok limits := by
  unfold RuntimeTransaction.sanitize_and_convert_to_compute_budget_limits at hl
  cases hh : d.requested_heap_size with
  | some p =>
    obtain ⟨i, hs⟩ := p
    by_cases hvalid : sanitize_requested_heap_size hs = true
    · simp only [hh, hvalid, if_true] at hl
      exact ⟨_, Nat.min_le_right _ _, hl⟩
    · simp only [hh, hvalid, if_false] at hl
      cases hl
  | none =>
    simp only [hh] at hl
    exact ⟨_, Nat.min_le_right _ _, hl⟩

/-- C3.  When no compute-unit limit was requested, both sanitizers derive the
limit as `min(MAX_COMPUTE_UNIT_LIMIT, (count_builtin + count_non_builtin -
count_compute_budget) * DEFAULT_INSTRUCTION_COMPUTE_UNIT_LIMIT)` with
saturating u32 subtraction and multiplication. -/
theorem claim_C3_default_cu_law (d : InstructionDetails)
    (h : d.requested_compute_unit_limit = none) :
    (∀ limits,
        ComputeBudgetProcessor.sanitize_and_convert_to_compute_budget_limits d =
          .ok limits →
        limits.compute_unit_limit =
          min MAX_COMPUTE_UNIT_LIMIT
            (u32SatMul
              (u32SatSub
                (u32SatAdd d.count_builtin_instructions
                  d.count_non_builtin_instructions)
                d.count_compute_budget_instructions)
              DEFAULT_INSTRUCTION_COMPUTE_UNIT_LIMIT)) ∧
      ∀ limits,
        RuntimeTransaction.sanitize_and_convert_to_compute_budget_limits d =
          .ok limits →
        limits.compute_unit_limit =
          min MAX_COMPUTE_UNIT_LIMIT
            (u32SatMul
              (u32SatSub
                (u32SatAdd d.count_builtin_instructions
                  d.count_non_builtin_instructions)
                d.count_compute_budget_instructions)
              DEFAULT_INSTRUCTION_COMPUTE_UNIT_LIMIT) := by
  constructor
  · intro limits hl
    have := (cbp_sanitize_ok_elim hl).2.1
    rw [h] at this
    rw [this, Nat.min_comm]
  · intro limits hl
    obtain ⟨hb, _, hrest⟩ := rt_sanitize_ok_elim hl
    have := (rt_sanitizeRest_ok_elim hrest).2.1
    rw [h] at this
    rw [this, Nat.min_comm]
    rfl

theorem claim_C3_default_cu_law_witness :
    ({} : InstructionDetails).requested_compute_unit_limit = none ∧
      ({ updated_heap_bytes := 32768, compute_unit_limit := 0,
         compute_unit_price := 0,
         loaded_accounts_bytes := 67108864 } : ComputeBudgetLimits).compute_unit_limit =
        min MAX_COMPUTE_UNIT_LIMIT
          (u32SatMul (u32SatSub (u32SatAdd 0 0) 0)
            DEFAULT_INSTRUCTION_COMPUTE_UNIT_LIMIT) :=
  ⟨rfl, (claim_C3_default_cu_law {} rfl).1 _ rfl⟩

/-- C4.  Every successful sanitization — by either sanitizer — clamps:
`compute_unit_limit <= MAX_COMPUTE_UNIT_LIMIT`, `updated_heap_bytes <=
MAX_HEAP_FRAME_BYTES`, `loaded_accounts_bytes <=
MAX_LOADED_ACCOUNTS_DATA_SIZE_BYTES`; in particular a requested limit of
`MAX_COMPUTE_UNIT_LIMIT + 1` is clamped to `MAX_COMPUTE_UNIT_LIMIT`, not
rejected. -/
theorem claim_C4_sanitizer_clamping (d : InstructionDetails)
    (limits : ComputeBudgetLimits) :
    ((ComputeBudgetProcessor.sanitize_and_convert_to_compute_budget_limits d =
          .ok limits ∨
        RuntimeTransaction.sanitize_and_convert_to_compute_budget_limits d =
          .ok limits) →
      limits.compute_unit_limit ≤ MAX_COMPUTE_UNIT_LIMIT ∧
        limits.updated_heap_bytes ≤ MAX_HEAP_FRAME_BYTES ∧
        limits.loaded_accounts_bytes ≤ MAX_LOADED_ACCOUNTS_DATA_SIZE_BYTES) ∧
      ∀ i, d.requested_compute_unit_limit = some (i, MAX_COMPUTE_UNIT_LIMIT + 1) →
        (ComputeBudgetProcessor.sanitize_and_convert_to_compute_budget_limits d =
            .ok limits →
          limits.compute_unit_limit = MAX_COMPUTE_UNIT_LIMIT) ∧
        (RuntimeTransaction.sanitize_and_convert_to_compute_budget_limits d =
            .ok limits →
          limits.compute_unit_limit = MAX_COMPUTE_UNIT_LIMIT) := by
  constructor
  · rintro (hl | hl)
    · obtain ⟨h1, h2, h3⟩ := cbp_sanitize_ok_elim hl
      exact ⟨h2 ▸ Nat.min_le_right _ _, h1 ▸ Nat.min_le_right _ _, h3⟩
    · obtain ⟨hb, hble, hrest⟩ := rt_sanitize_ok_elim hl
      obtain ⟨h1, h2, h3⟩ := rt_sanitizeRest_ok_elim hrest
      exact ⟨h2 ▸ Nat.min_le_right _ _, h1 ▸ hble, h3⟩
  · intro i hreq
    constructor
    · intro hl
      have := (cbp_sanitize_ok_elim hl).2.1
      rw [hreq] at this
      rw [this]
      exact Nat.min_eq_right (Nat.le_succ _)
    · intro hl
      obtain ⟨hb, _, hrest⟩ := rt_sanitize_ok_elim hl
      have := (rt_sanitizeRest_ok_elim hrest).2.1
      rw [hreq] at this
      rw [this]
      exact Nat.min_eq_right (Nat.le_succ _)

theorem claim_C4_sanitizer_clamping_witness :
    (ComputeBudgetProcessor.sanitize_and_convert_to_compute_budget_limits
        { requested_compute_unit_limit := some (0, MAX_COMPUTE_UNIT_LIMIT + 1) } =
        .ok { updated_heap_bytes := 32768,
              compute_unit_limit := MAX_COMPUTE_UNIT_LIMIT,
              compute_unit_price := 0, loaded_accounts_bytes := 67108864 }) ∧
      ({ updated_heap_bytes := 32768, compute_unit_limit := MAX_COMPUTE_UNIT_LIMIT,
         compute_unit_price := 0,
         loaded_accounts_bytes := 67108864 } : ComputeBudgetLimits).compute_unit_limit ≤
        MAX_COMPUTE_UNIT_LIMIT ∧
      ({ updated_heap_bytes := 32768, compute_unit_limit := MAX_COMPUTE_UNIT_LIMIT,
         compute_unit_price := 0,
         loaded_accounts_bytes := 67108864 } : ComputeBudgetLimits).compute_unit_limit =
        MAX_COMPUTE_UNIT_LIMIT :=
  ⟨rfl,
   ((claim_C4_sanitizer_clamping
      { requested_compute_unit_limit := some (0, MAX_COMPUTE_UNIT_LIMIT + 1) } _).1
      (Or.inl rfl)).1,
   (((claim_C4_sanitizer_clamping
      { requested_compute_unit_limit := some (0, MAX_COMPUTE_UNIT_LIMIT + 1) } _).2
      0 rfl).1 rfl)⟩

/-- The compute-budget-processor sanitizer fails with
`InvalidLoadedAccountsDataSizeLimit` exactly on a stored zero request. -/
theorem cbp_sanitize_loaded_cases (d : InstructionDetails) :
    (ComputeBudgetProcessor.sanitize_and_convert_to_compute_budget_limits d =
        .error .InvalidLoadedAccountsDataSizeLimit ↔
      ∃ i, d.requested_loaded_accounts_data_size_limit = some (i, 0)) ∧
    (∀ i v, d.requested_loaded_accounts_data_size_limit = some (i, v) → v ≠ 0 →
      ∃ limits,
        ComputeBudgetProcessor.sanitize_and_convert_to_compute_budget_limits d =
          .ok limits ∧
        limits.loaded_accounts_bytes = min MAX_LOADED_ACCOUNTS_DATA_SIZE_BYTES v) ∧
    (d.requested_loaded_accounts_data_size_limit = none →
      ∃ limits,
        ComputeBudgetProcessor.sanitize_and_convert_to_compute_budget_limits d =
          .ok limits ∧
        limits.loaded_accounts_bytes = MAX_LOADED_ACCOUNTS_DATA_SIZE_BYTES) := by
  refine ⟨?_, ?_, ?_⟩
  · unfold ComputeBudgetProcessor.sanitize_and_convert_to_compute_budget_limits
    cases hv : d.requested_loaded_accounts_data_size_limit with
    | some p =>
      obtain ⟨i, v⟩ := p
      by_cases hv0 : v = 0
      · subst hv0
        simp only [if_pos rfl]
        exact ⟨fun _ => ⟨i, rfl⟩, fun _ => rfl⟩
      · simp only [if_neg hv0]
        constructor
        · intro hcon; cases hcon
        · rintro ⟨i', hi'⟩
          simp only [Option.some.injEq, Prod.mk.injEq] at hi'
          exact absurd hi'.2 hv0
    | none =>
      constructor
      · intro hcon; cases hcon
      · rintro ⟨i', hi'⟩
        exact Option.noConfusion hi'
  · intro i v hv hv0
    unfold ComputeBudgetProcessor.sanitize_and_convert_to_compute_budget_limits
    simp only [hv, if_neg hv0]
    exact ⟨_, rfl, Nat.min_comm _ _⟩
  · intro hnone
    unfold ComputeBudgetProcessor.sanitize_and_convert_to_compute_budget_limits
    simp only [hnone]
    exact ⟨_, rfl, Nat.min_self _⟩

/-- The tail of the runtime-transaction sanitizer obeys the same
loaded-accounts rule. -/
theorem rt_sanitizeRest_loaded_cases (d : InstructionDetails) (hb : Nat) :
    (RuntimeTransaction.sanitize_and_convert_to_compute_budget_limits.sanitizeRest
        d hb = .error .InvalidLoadedAccountsDataSizeLimit ↔
      ∃ i, d.requested_loaded_accounts_data_size_limit = some (i, 0)) ∧
    (∀ i v, d.requested_loaded_accounts_data_size_limit = some (i, v) → v ≠ 0 →
      ∃ limits,
        RuntimeTransaction.sanitize_and_convert_to_compute_budget_limits.sanitizeRest
          d hb = .ok limits ∧
        limits.loaded_accounts_bytes = min MAX_LOADED_ACCOUNTS_DATA_SIZE_BYTES v) ∧
    (d.requested_loaded_accounts_data_size_limit = none →
      ∃ limits,
        RuntimeTransaction.sanitize_and_convert_to_compute_budget_limits.sanitizeRest
          d hb = .ok limits ∧
        limits.loaded_accounts_bytes = MAX_LOADED_ACCOUNTS_DATA_SIZE_BYTES) := by
  refine ⟨?_, ?_, ?_⟩
  · unfold RuntimeTransaction.sanitize_and_convert_to_compute_budget_limits.sanitizeRest
    cases hv : d.requested_loaded_accounts_data_size_limit with
    | some p =>
      obtain ⟨i, v⟩ := p
      by_cases hv0 : v = 0
      · subst hv0
        simp only [if_pos rfl]
        exact ⟨fun _ => ⟨i, rfl⟩, fun _ => rfl⟩
      · simp only [if_neg hv0]
        constructor
        · intro hcon; cases hcon
        · rintro ⟨i', hi'⟩
          simp only [Option.some.injEq, Prod.mk.injEq] at hi'
          exact absurd hi'.2 hv0
    | none =>
      constructor
      · intro hcon; cases hcon
      · rintro ⟨i', hi'⟩
        exact Option.noConfusion hi'
  · intro i v hv hv0
    unfold RuntimeTransaction.sanitize_and_convert_to_compute_budget_limits.sanitizeRest
    simp only [hv, if_neg hv0]
    exact ⟨_, rfl, Nat.min_comm _ _⟩
  · intro hnone
    unfold RuntimeTransaction.sanitize_and_convert_to_compute_budget_limits.sanitizeRest
    simp only [hnone]
    exact ⟨_, rfl, Nat.min_self _⟩

/-- C5.  The loaded-accounts-size rule of both sanitizers: a requested value
of 0 fails with `InvalidLoadedAccountsDataSizeLimit` (and that is the only
source of this failure), a non-zero requested value `v` yields
`min(MAX_LOADED_ACCOUNTS_DATA_SIZE_BYTES, v)`, an absent request yields
`MAX_LOADED_ACCOUNTS_DATA_SIZE_BYTES`.  For the runtime-transaction sanitizer
"no earlier failure" means the stored heap request, if any, is valid. -/
theorem claim_C5_loaded_accounts_rule (d : InstructionDetails) :
    (ComputeBudgetProcessor.sanitize_and_convert_to_compute_budget_limits d =
        .error .InvalidLoadedAccountsDataSizeLimit ↔
      ∃ i, d.requested_loaded_accounts_data_size_limit = some (i, 0)) ∧
    (∀ i v, d.requested_loaded_accounts_data_size_limit = some (i, v) → v ≠ 0 →
      ∃ limits,
        ComputeBudgetProcessor.sanitize_and_convert_to_compute_budget_limits d =
          .ok limits ∧
        limits.loaded_accounts_bytes = min MAX_LOADED_ACCOUNTS_DATA_SIZE_BYTES v) ∧
    (d.requested_loaded_accounts_data_size_limit = none →
      ∃ limits,
        ComputeBudgetProcessor.sanitize_and_convert_to_compute_budget_limits d =
          .ok limits ∧
        limits.loaded_accounts_bytes = MAX_LOADED_ACCOUNTS_DATA_SIZE_BYTES) ∧
    ((∀ i hs, d.requested_heap_size = some (i, hs) →
        sanitize_requested_heap_size hs = true) →
      (RuntimeTransaction.sanitize_and_convert_to_compute_budget_limits d =
          .error .InvalidLoadedAccountsDataSizeLimit ↔
        ∃ i, d.requested_loaded_accounts_data_size_limit = some (i, 0)) ∧
      (∀ i v, d.requested_loaded_accounts_data_size_limit = some (i, v) → v ≠ 0 →
        ∃ limits,
          RuntimeTransaction.sanitize_and_convert_to_compute_budget_limits d =
            .ok limits ∧
          limits.loaded_accounts_bytes =
            min MAX_LOADED_ACCOUNTS_DATA_SIZE_BYTES v) ∧
      (d.requested_loaded_accounts_data_size_limit = none →
        ∃ limits,
          RuntimeTransaction.sanitize_and_convert_to_compute_budget_limits d =
            .ok limits ∧
          limits.loaded_accounts_bytes = MAX_LOADED_ACCOUNTS_DATA_SIZE_BYTES)) := by
  refine ⟨(cbp_sanitize_loaded_cases d).1, (cbp_sanitize_loaded_cases d).2.1,
    (cbp_sanitize_loaded_cases d).2.2, ?_⟩
  intro hheap
  have hred :
      RuntimeTransaction.sanitize_and_convert_to_compute_budget_limits d =
        RuntimeTransaction.sanitize_and_convert_to_compute_budget_limits.sanitizeRest d
          (match d.requested_heap_size with
            | some (_, hs) => min hs MAX_HEAP_FRAME_BYTES
            | none => min MIN_HEAP_FRAME_BYTES MAX_HEAP_FRAME_BYTES) := by
    unfold RuntimeTransaction.sanitize_and_convert_to_compute_budget_limits
    cases hh : d.requested_heap_size with
    | some p =>
      obtain ⟨i, hs⟩ := p
      simp only [hheap i hs hh, if_true]
    | none => rfl
  rw [hred]
  exact ⟨(rt_sanitizeRest_loaded_cases d _).1, (rt_sanitizeRest_loaded_cases d _).2.1,
    (rt_sanitizeRest_loaded_cases d _).2.2⟩

theorem claim_C5_loaded_accounts_rule_witness :
    ComputeBudgetProcessor.sanitize_and_convert_to_compute_budget_limits
        { requested_loaded_accounts_data_size_limit := some (0, 0) } =
      .error .InvalidLoadedAccountsDataSizeLimit ∧
    (∃ limits,
      ComputeBudgetProcessor.sanitize_and_convert_to_compute_budget_limits
          { requested_loaded_accounts_data_size_limit := some (0, 5) } =
        .ok limits ∧
      limits.loaded_accounts_bytes = min MAX_LOADED_ACCOUNTS_DATA_SIZE_BYTES 5) :=
  ⟨(claim_C5_loaded_accounts_rule
      { requested_loaded_accounts_data_size_limit := some (0, 0) }).1.mpr ⟨0, rfl⟩,
   (claim_C5_loaded_accounts_rule
      { requested_loaded_accounts_data_size_limit := some (0, 5) }).2.1 0 5 rfl
      (by decide)⟩

/-- The heap-size guard agrees with the spec's range-and-alignment condition. -/
theorem sanitize_requested_heap_size_iff (b : Nat) :
    sanitize_requested_heap_size b = true ↔
      MIN_HEAP_FRAME_BYTES ≤ b ∧ b ≤ MAX_HEAP_FRAME_BYTES ∧ b % 1024 = 0 := by
  simp [sanitize_requested_heap_size, and_assoc]

/-- Heap-request handling of `parse_compute_budget_instructions` at an index
with no prior heap request: accept exactly the valid sizes, otherwise fail
with invalid instruction data. -/
theorem cbp_parse_heap_step (cbId : Pubkey) (d : InstructionDetails) (idx : Nat)
    (data : List Nat) (b : Nat) (hnone : d.requested_heap_size = none)
    (hdec : tryFromSliceUnchecked data = some (.RequestHeapFrame b)) :
    ((∃ d', ComputeBudgetProcessor.parse_compute_budget_instructions cbId d idx
        cbId data = .ok d') ↔
      MIN_HEAP_FRAME_BYTES ≤ b ∧ b ≤ MAX_HEAP_FRAME_BYTES ∧ b % 1024 = 0) ∧
    (¬(MIN_HEAP_FRAME_BYTES ≤ b ∧ b ≤ MAX_HEAP_FRAME_BYTES ∧ b % 1024 = 0) →
      ComputeBudgetProcessor.parse_compute_budget_instructions cbId d idx
        cbId data = .error (.InstructionError idx .InvalidInstructionData)) := by
  unfold ComputeBudgetProcessor.parse_compute_budget_instructions
  simp only [if_pos rfl, hdec, hnone, Option.isSome_none, Bool.false_eq_true,
    if_false]
  by_cases hb : sanitize_requested_heap_size b = true
  · have hv := (sanitize_requested_heap_size_iff b).mp hb
    simp only [hb, if_true]
    exact ⟨⟨fun _ => hv, fun _ => ⟨_, rfl⟩⟩, fun hcon => absurd hv hcon⟩
  · have hv : ¬(MIN_HEAP_FRAME_BYTES ≤ b ∧ b ≤ MAX_HEAP_FRAME_BYTES ∧
        b % 1024 = 0) := fun hc => hb ((sanitize_requested_heap_size_iff b).mpr hc)
    simp only [hb, if_false]
    exact ⟨⟨fun ⟨_, hcon⟩ => Except.noConfusion hcon, fun hc => absurd hc hv⟩,
      fun _ => rfl⟩

/-- Heap-request handling of the (spec-modelled)
`InstructionDetails::process_compute_budget_instruction` step used by
`try_from`: same acceptance condition. -/
theorem rt_process_heap_step (cbId : Pubkey) (d : InstructionDetails) (idx : Nat)
    (data : List Nat) (b : Nat) (hnone : d.requested_heap_size = none)
    (hdec : tryFromSliceUnchecked data = some (.RequestHeapFrame b)) :
    ((∃ d', RuntimeTransaction.process_compute_budget_instruction cbId d idx
        cbId data = .ok d') ↔
      MIN_HEAP_FRAME_BYTES ≤ b ∧ b ≤ MAX_HEAP_FRAME_BYTES ∧ b % 1024 = 0) ∧
    (¬(MIN_HEAP_FRAME_BYTES ≤ b ∧ b ≤ MAX_HEAP_FRAME_BYTES ∧ b % 1024 = 0) →
      RuntimeTransaction.process_compute_budget_instruction cbId d idx
        cbId data = .error (.InstructionError idx .InvalidInstructionData)) := by
  unfold RuntimeTransaction.process_compute_budget_instruction
  simp only [if_pos rfl, hdec, hnone, Option.isSome_none, Bool.false_eq_true,
    if_false]
  by_cases hb : sanitize_requested_heap_size b = true
  · have hv := (sanitize_requested_heap_size_iff b).mp hb
    simp only [hb, if_true]
    exact ⟨⟨fun _ => hv, fun _ => ⟨_, rfl⟩⟩, fun hcon => absurd hv hcon⟩
  · have hv : ¬(MIN_HEAP_FRAME_BYTES ≤ b ∧ b ≤ MAX_HEAP_FRAME_BYTES ∧
        b % 1024 = 0) := fun hc => hb ((sanitize_requested_heap_size_iff b).mpr hc)
    simp only [hb, if_false]
    exact ⟨⟨fun ⟨_, hcon⟩ => Except.noConfusion hcon, fun hc => absurd hc hv⟩,
      fun _ => rfl⟩

/-- `get_instruction_details` on a one-instruction list is its compute-budget
step followed by the builtin step. -/
theorem cbp_get_singleton (builtinCost : Pubkey → Option Nat) (cbId pid : Pubkey)
    (data : List Nat) :
    ComputeBudgetProcessor.get_instruction_details builtinCost cbId [(pid, data)] =
      match ComputeBudgetProcessor.parse_compute_budget_instructions cbId {} 0
        pid data with
      | .error e => .error e
      | .ok d =>
        .ok (ComputeBudgetProcessor.parse_builtin_instructions builtinCost d pid) := by
  unfold ComputeBudgetProcessor.get_instruction_details
    ComputeBudgetProcessor.getInstructionDetailsGo
  cases h : ComputeBudgetProcessor.parse_compute_budget_instructions cbId {} 0
      pid data with
  | error e => simp [Nat.zero_mod, h]
  | ok d => simp [Nat.zero_mod, h, ComputeBudgetProcessor.getInstructionDetailsGo]

/-- `InstructionDetails::try_from` on a one-instruction list whose program id
passes the first-byte filter is its compute-budget step followed by the
builtin step. -/
theorem rt_tryFrom_singleton (builtinCost : Pubkey → Option Nat)
    (maybeBuiltin : Pubkey → Bool) (cbId pid : Pubkey) (data : List Nat)
    (hmb : maybeBuiltin pid = true) :
    RuntimeTransaction.tryFrom builtinCost maybeBuiltin cbId [(pid, data)] =
      match RuntimeTransaction.process_compute_budget_instruction cbId {} 0
        pid data with
      | .error e => .error e
      | .ok d =>
        .ok (RuntimeTransaction.process_builtin_instruction builtinCost d pid) := by
  unfold RuntimeTransaction.tryFrom RuntimeTransaction.tryFromGo
  cases h : RuntimeTransaction.process_compute_budget_instruction cbId {} 0
      pid data with
  | error e => simp [Nat.zero_mod, hmb, h]
  | ok d => simp [Nat.zero_mod, hmb, h, RuntimeTransaction.tryFromGo]

/-- C2.  Both parsers accept a `RequestHeapFrame(b)` instruction at parse time
iff `MIN_HEAP_FRAME_BYTES <= b <= MAX_HEAP_FRAME_BYTES` and `b mod 1024 = 0`,
and otherwise fail with `InstructionError(index, InvalidInstructionData)`;
stated for the per-instruction steps at any index (with no prior heap
request), and for the entry points `get_instruction_details` and
`InstructionDetails::try_from` on a transaction whose instruction at index 0
is the heap request. -/
theorem claim_C2_heap_validity (builtinCost : Pubkey → Option Nat)
    (maybeBuiltin : Pubkey → Bool) (cbId : Pubkey) (d : InstructionDetails)
    (idx : Nat) (data : List Nat) (b : Nat)
    (hnone : d.requested_heap_size = none)
    (hdec : tryFromSliceUnchecked data = some (.RequestHeapFrame b))
    (hmb : maybeBuiltin cbId = true) :
    ((∃ d', ComputeBudgetProcessor.parse_compute_budget_instructions cbId d idx
        cbId data = .ok d') ↔
      MIN_HEAP_FRAME_BYTES ≤ b ∧ b ≤ MAX_HEAP_FRAME_BYTES ∧ b % 1024 = 0) ∧
    (¬(MIN_HEAP_FRAME_BYTES ≤ b ∧ b ≤ MAX_HEAP_FRAME_BYTES ∧ b % 1024 = 0) →
      ComputeBudgetProcessor.parse_compute_budget_instructions cbId d idx
        cbId data = .error (.InstructionError idx .InvalidInstructionData)) ∧
    ((∃ d', RuntimeTransaction.process_compute_budget_instruction cbId d idx
        cbId data = .ok d') ↔
      MIN_HEAP_FRAME_BYTES ≤ b ∧ b ≤ MAX_HEAP_FRAME_BYTES ∧ b % 1024 = 0) ∧
    (¬(MIN_HEAP_FRAME_BYTES ≤ b ∧ b ≤ MAX_HEAP_FRAME_BYTES ∧ b % 1024 = 0) →
      RuntimeTransaction.process_compute_budget_instruction cbId d idx
        cbId data = .error (.InstructionError idx .InvalidInstructionData)) ∧
    ((∃ dd, ComputeBudgetProcessor.get_instruction_details builtinCost cbId
        [(cbId, data)] = .ok dd) ↔
      MIN_HEAP_FRAME_BYTES ≤ b ∧ b ≤ MAX_HEAP_FRAME_BYTES ∧ b % 1024 = 0) ∧
    (¬(MIN_HEAP_FRAME_BYTES ≤ b ∧ b ≤ MAX_HEAP_FRAME_BYTES ∧ b % 1024 = 0) →
      ComputeBudgetProcessor.get_instruction_details builtinCost cbId
        [(cbId, data)] = .error (.InstructionError 0 .InvalidInstructionData)) ∧
    ((∃ dd, RuntimeTransaction.tryFrom builtinCost maybeBuiltin cbId
        [(cbId, data)] = .ok dd) ↔
      MIN_HEAP_FRAME_BYTES ≤ b ∧ b ≤ MAX_HEAP_FRAME_BYTES ∧ b % 1024 = 0) ∧
    (¬(MIN_HEAP_FRAME_BYTES ≤ b ∧ b ≤ MAX_HEAP_FRAME_BYTES ∧ b % 1024 = 0) →
      RuntimeTransaction.tryFrom builtinCost maybeBuiltin cbId [(cbId, data)] =
        .error (.InstructionError 0 .InvalidInstructionData)) := by
  refine ⟨(cbp_parse_heap_step cbId d idx data b hnone hdec).1,
    (cbp_parse_heap_step cbId d idx data b hnone hdec).2,
    (rt_process_heap_step cbId d idx data b hnone hdec).1,
    (rt_process_heap_step cbId d idx data b hnone hdec).2, ?_, ?_, ?_, ?_⟩
  · rw [cbp_get_singleton]
    constructor
    · rintro ⟨dd, hdd⟩
      rcases hcase : ComputeBudgetProcessor.parse_compute_budget_instructions cbId
          {} 0 cbId data with e | d0
      · rw [hcase] at hdd; cases hdd
      · exact (cbp_parse_heap_step cbId {} 0 data b rfl hdec).1.mp ⟨d0, hcase⟩
    · intro hv
      obtain ⟨d0, hd0⟩ := (cbp_parse_heap_step cbId {} 0 data b rfl hdec).1.mpr hv
      rw [hd0]
      exact ⟨_, rfl⟩
  · intro hv
    rw [cbp_get_singleton, (cbp_parse_heap_step cbId {} 0 data b rfl hdec).2 hv]
  · rw [rt_tryFrom_singleton builtinCost maybeBuiltin cbId cbId data hmb]
    constructor
    · rintro ⟨dd, hdd⟩
      rcases hcase : RuntimeTransaction.process_compute_budget_instruction cbId
          {} 0 cbId data with e | d0
      · rw [hcase] at hdd; cases hdd
      · exact (rt_process_heap_step cbId {} 0 data b rfl hdec).1.mp ⟨d0, hcase⟩
    · intro hv
      obtain ⟨d0, hd0⟩ := (rt_process_heap_step cbId {} 0 data b rfl hdec).1.mpr hv
      rw [hd0]
      exact ⟨_, rfl⟩
  · intro hv
    rw [rt_tryFrom_singleton builtinCost maybeBuiltin cbId cbId data hmb,
      (rt_process_heap_step cbId {} 0 data b rfl hdec).2 hv]

theorem claim_C2_heap_validity_witness :
    ({} : InstructionDetails).requested_heap_size = none ∧
    tryFromSliceUnchecked (requestHeapFrameData (40 * 1024)) =
      some (.RequestHeapFrame (40 * 1024)) ∧
    (∃ dd, ComputeBudgetProcessor.get_instruction_details (fun _ => none) 0
      [(0, requestHeapFrameData (40 * 1024))] = .ok dd) ∧
    (∃ dd, RuntimeTransaction.tryFrom (fun _ => none) (fun _ => true) 0
      [(0, requestHeapFrameData (40 * 1024))] = .ok dd) :=
  ⟨rfl, rfl,
   (claim_C2_heap_validity (fun _ => none) (fun _ => true) 0 {} 0
      (requestHeapFrameData (40 * 1024)) (40 * 1024) rfl rfl
      rfl).2.2.2.2.1.mpr (by decide),
   (claim_C2_heap_validity (fun _ => none) (fun _ => true) 0 {} 0
      (requestHeapFrameData (40 * 1024)) (40 * 1024) rfl rfl
      rfl).2.2.2.2.2.2.1.mpr (by decide)⟩

/-- A successful compute-budget parse step preserves populated
`requested_*` slots. -/
theorem cbp_parse_slot_mono {cbId : Pubkey} {d : InstructionDetails} {idx : Nat}
    {pid : Pubkey} {data : List Nat} {d' : InstructionDetails}
    (h : ComputeBudgetProcessor.parse_compute_budget_instructions cbId d idx
      pid data = .ok d')
    (v : CBVariant) (hs : (d.slot v).isSome) : (d'.slot v).isSome := by
  unfold ComputeBudgetProcessor.parse_compute_budget_instructions at h
  by_cases hpid : pid = cbId
  · rw [if_pos hpid] at h
    cases hdec : tryFromSliceUnchecked data with
    | none =>
      simp only [hdec] at h
      cases h
    | some ix =>
      cases ix with
      | RequestHeapFrame b =>
        simp only [hdec] at h
        split at h
        · cases h
        · split at h
          · cases h
            cases v <;> simp_all [InstructionDetails.slot]
          · cases h
      | SetComputeUnitLimit u =>
        simp only [hdec] at h
        split at h
        · cases h
        · cases h
          cases v <;> simp_all [InstructionDetails.slot]
      | SetComputeUnitPrice u =>
        simp only [hdec] at h
        split at h
        · cases h
        · cases h
          cases v <;> simp_all [InstructionDetails.slot]
      | SetLoadedAccountsDataSizeLimit u =>
        simp only [hdec] at h
        split at h
        · cases h
        · cases h
          cases v <;> simp_all [InstructionDetails.slot]
  · rw [if_neg hpid] at h
    cases h
    exact hs

/-- The builtin accounting step never touches the `requested_*` slots. -/
theorem cbp_builtin_slot (builtinCost : Pubkey → Option Nat)
    (d : InstructionDetails) (pid : Pubkey) (v : CBVariant) :
    (ComputeBudgetProcessor.parse_builtin_instructions builtinCost d pid).slot v =
      d.slot v := by
  unfold ComputeBudgetProcessor.parse_builtin_instructions
  cases h : builtinCost pid <;> cases v <;> simp [InstructionDetails.slot]

/-- A compute-budget parse step that succeeds on a decodable compute-budget
instruction populates the slot of the decoded variant. -/
theorem cbp_parse_slot_set {cbId : Pubkey} {d : InstructionDetails} {idx : Nat}
    {data : List Nat} {ix : ComputeBudgetInstruction} {d' : InstructionDetails}
    (hdec : tryFromSliceUnchecked data = some ix)
    (h : ComputeBudgetProcessor.parse_compute_budget_instructions cbId d idx
      cbId data = .ok d') :
    (d'.slot ix.variant).isSome := by
  unfold ComputeBudgetProcessor.parse_compute_budget_instructions at h
  rw [if_pos rfl] at h
  cases ix with
  | RequestHeapFrame b =>
    simp only [hdec] at h
    split at h
    · cases h
    · split at h
      · cases h
        simp [InstructionDetails.slot, ComputeBudgetInstruction.variant]
      · cases h
  | SetComputeUnitLimit u =>
    simp only [hdec] at h
    split at h
    · cases h
    · cases h
      simp [InstructionDetails.slot, ComputeBudgetInstruction.variant]
  | SetComputeUnitPrice u =>
    simp only [hdec] at h
    split at h
    · cases h
    · cases h
      simp [InstructionDetails.slot, ComputeBudgetInstruction.variant]
  | SetLoadedAccountsDataSizeLimit u =>
    simp only [hdec] at h
    split at h
    · cases h
    · cases h
      simp [InstructionDetails.slot, ComputeBudgetInstruction.variant]

/-- The duplicate check fires first: a compute-budget instruction whose
decoded variant's slot is already populated fails with
`DuplicateInstruction(index)`. -/
theorem cbp_parse_dup {cbId : Pubkey} {d : InstructionDetails} {idx : Nat}
    {data : List Nat} {ix : ComputeBudgetInstruction}
    (hdec : tryFromSliceUnchecked data = some ix)
    (hs : (d.slot ix.variant).isSome) :
    ComputeBudgetProcessor.parse_compute_budget_instructions cbId d idx
      cbId data = .error (.DuplicateInstruction idx) := by
  unfold ComputeBudgetProcessor.parse_compute_budget_instructions
  rw [if_pos rfl]
  cases ix <;>
    simp_all [InstructionDetails.slot, ComputeBudgetInstruction.variant]

/-- Definitional unfolding of the scan on an empty list. -/
theorem cbp_go_nil (builtinCost : Pubkey → Option Nat) (cbId : Pubkey) (i : Nat)
    (d : InstructionDetails) :
    ComputeBudgetProcessor.getInstructionDetailsGo builtinCost cbId [] i d =
      .ok d := rfl

/-- Definitional unfolding of the scan on a cons. -/
theorem cbp_go_cons (builtinCost : Pubkey → Option Nat) (cbId pid : Pubkey)
    (data : List Nat) (rest : List (Pubkey × List Nat)) (i : Nat)
    (d : InstructionDetails) :
    ComputeBudgetProcessor.getInstructionDetailsGo builtinCost cbId
        ((pid, data) :: rest) i d =
      match ComputeBudgetProcessor.parse_compute_budget_instructions cbId d
        (i % 256) pid data with
      | .error e => .error e
      | .ok d1 =>
        ComputeBudgetProcessor.getInstructionDetailsGo builtinCost cbId rest
          (i + 1)
          (ComputeBudgetProcessor.parse_builtin_instructions builtinCost d1 pid) :=
  rfl

/-- The whole scan preserves populated slots. -/
theorem cbp_go_slot_mono {builtinCost : Pubkey → Option Nat} {cbId : Pubkey}
    {seq : List (Pubkey × List Nat)} {i : Nat} {d d' : InstructionDetails}
    (h : ComputeBudgetProcessor.getInstructionDetailsGo builtinCost cbId seq i d =
      .ok d')
    (v : CBVariant) (hs : (d.slot v).isSome) : (d'.slot v).isSome := by
  induction seq generalizing i d with
  | nil =>
    unfold ComputeBudgetProcessor.getInstructionDetailsGo at h
    cases h
    exact hs
  | cons x rest ih =>
    obtain ⟨pid, data⟩ := x
    unfold ComputeBudgetProcessor.getInstructionDetailsGo at h
    cases hp : ComputeBudgetProcessor.parse_compute_budget_instructions cbId d
        (i % 256) pid data with
    | error e => rw [hp] at h; cases h
    | ok d1 =>
      rw [hp] at h
      refine ih h ?_
      rw [cbp_builtin_slot]
      exact cbp_parse_slot_mono hp v hs

/-- A successful scan over a list containing a decodable compute-budget
instruction leaves that variant's slot populated. -/
theorem cbp_go_slot_set {builtinCost : Pubkey → Option Nat} {cbId : Pubkey}
    {seq : List (Pubkey × List Nat)} {i : Nat} {d d' : InstructionDetails}
    (h : ComputeBudgetProcessor.getInstructionDetailsGo builtinCost cbId seq i d =
      .ok d')
    (k : Nat) (data : List Nat) (ix : ComputeBudgetInstruction)
    (hk : seq[k]? = some (cbId, data))
    (hdec : tryFromSliceUnchecked data = some ix) :
    (d'.slot ix.variant).isSome := by
  induction seq generalizing i d k with
  | nil => simp at hk
  | cons x rest ih =>
    obtain ⟨pid0, data0⟩ := x
    unfold ComputeBudgetProcessor.getInstructionDetailsGo at h
    cases hp : ComputeBudgetProcessor.parse_compute_budget_instructions cbId d
        (i % 256) pid0 data0 with
    | error e => rw [hp] at h; cases h
    | ok d1 =>
      rw [hp] at h
      cases k with
      | zero =>
        simp only [List.getElem?_cons_zero, Option.some.injEq, Prod.mk.injEq] at hk
        obtain ⟨hpid0, hdata0⟩ := hk
        subst hpid0
        subst hdata0
        refine cbp_go_slot_mono h _ ?_
        rw [cbp_builtin_slot]
        exact cbp_parse_slot_set hdec hp
      | succ k' =>
        exact ih h k' (by simpa using hk)

/-- If the scan succeeds on a prefix, the scan of the concatenation continues
from the prefix result. -/
theorem cbp_go_append_ok {builtinCost : Pubkey → Option Nat} {cbId : Pubkey}
    {xs : List (Pubkey × List Nat)} {i : Nat} {d dm : InstructionDetails}
    (h : ComputeBudgetProcessor.getInstructionDetailsGo builtinCost cbId xs i d =
      .ok dm)
    (ys : List (Pubkey × List Nat)) :
    ComputeBudgetProcessor.getInstructionDetailsGo builtinCost cbId (xs ++ ys) i d =
      ComputeBudgetProcessor.getInstructionDetailsGo builtinCost cbId ys
        (i + xs.length) dm := by
  induction xs generalizing i d with
  | nil =>
    rw [cbp_go_nil] at h
    cases h
    rw [List.nil_append, List.length_nil, Nat.add_zero]
  | cons x rest ih =>
    obtain ⟨pid, data⟩ := x
    rw [cbp_go_cons] at h
    rw [List.cons_append, cbp_go_cons]
    cases hp : ComputeBudgetProcessor.parse_compute_budget_instructions cbId d
        (i % 256) pid data with
    | error e =>
      rw [hp] at h
      cases h
    | ok d1 =>
      rw [hp] at h
      simp only [hp]
      rw [ih h]
      congr 1
      rw [List.length_cons]
      omega

/-- C1.  If a sequence contains two compute-budget instructions of the same
successfully decoded variant at indices `i < j <= 255` and parsing the prefix
before `j` succeeds, `get_instruction_details` fails with
`DuplicateInstruction(j)` — keyed to the later index.  Conjoined: the
equivalent single-step property of
`ComputeBudgetInstructionDetails::process_instruction`, whose duplicate error
is likewise keyed to the incoming (later) index. -/
theorem claim_C1_duplicate_detection (builtinCost : Pubkey → Option Nat)
    (cbId : Pubkey) (seq : List (Pubkey × List Nat)) (i j : Nat)
    (dataI dataJ : List Nat) (ixI ixJ : ComputeBudgetInstruction)
    (hij : i < j) (hj255 : j ≤ 255)
    (hgetI : seq[i]? = some (cbId, dataI))
    (hdecI : tryFromSliceUnchecked dataI = some ixI)
    (hgetJ : seq[j]? = some (cbId, dataJ))
    (hdecJ : tryFromSliceUnchecked dataJ = some ixJ)
    (hvar : ixI.variant = ixJ.variant)
    (hpre : ∃ dpre,
      ComputeBudgetProcessor.getInstructionDetailsGo builtinCost cbId
        (seq.take j) 0 {} = .ok dpre) :
    ComputeBudgetProcessor.get_instruction_details builtinCost cbId seq =
        .error (.DuplicateInstruction j) ∧
      ∀ (d : ComputeBudgetInstructionDetails) (idx : Nat) (data : List Nat)
        (ix : ComputeBudgetInstruction),
        tryFromSliceUnchecked data = some ix → (d.slot ix.variant).isSome →
        d.process_instruction cbId idx cbId data =
          .error (.DuplicateInstruction idx) := by
  constructor
  · obtain ⟨dpre, hdpre⟩ := hpre
    have hjlen : j < seq.length := (List.getElem?_eq_some_iff.mp hgetJ).1
    have hslot : (dpre.slot ixJ.variant).isSome := by
      rw [← hvar]
      exact cbp_go_slot_set hdpre i dataI ixI
        (by rw [List.getElem?_take_of_lt hij]; exact hgetI) hdecI
    have hgetJ' : seq[j] = (cbId, dataJ) := by
      have := (List.getElem?_eq_some_iff.mp hgetJ).2
      exact this
    unfold ComputeBudgetProcessor.get_instruction_details
    have h1 : ComputeBudgetProcessor.getInstructionDetailsGo builtinCost cbId seq
        0 {} =
        ComputeBudgetProcessor.getInstructionDetailsGo builtinCost cbId
          (seq.drop j) (0 + (seq.take j).length) dpre := by
      conv_lhs => rw [← List.take_append_drop j seq]
      exact cbp_go_append_ok hdpre _
    have h2 : 0 + (seq.take j).length = j := by
      rw [List.length_take]
      omega
    rw [h1, h2, List.drop_eq_getElem_cons hjlen, hgetJ', cbp_go_cons,
      Nat.mod_eq_of_lt (by omega : j < 256), cbp_parse_dup hdecJ hslot]
  · intro d idx data ix hdec hs
    unfold ComputeBudgetInstructionDetails.process_instruction
    rw [if_pos rfl, hdec]
    cases ix <;>
      simp_all [ComputeBudgetInstructionDetails.slot,
        ComputeBudgetInstruction.variant]

theorem claim_C1_duplicate_detection_witness :
    ComputeBudgetProcessor.get_instruction_details (fun _ => none) 0
      [(0, setComputeUnitLimitData 5), (0, setComputeUnitLimitData 6)] =
      .error (.DuplicateInstruction 1) :=
  (claim_C1_duplicate_detection (fun _ => none) 0
    [(0, setComputeUnitLimitData 5), (0, setComputeUnitLimitData 6)] 0 1
    (setComputeUnitLimitData 5) (setComputeUnitLimitData 6)
    (.SetComputeUnitLimit 5) (.SetComputeUnitLimit 6)
    (by decide) (by decide) rfl (by decide) rfl (by decide) rfl
    ⟨_, rfl⟩).1

/-- `pop_min` fails only on the empty heap. -/
theorem heapPopMinEqNone :
    ∀ {l : List FlatPacket}, heapPopMin l = none → l = [] := by
  intro l h
  cases l with
  | nil => rfl
  | cons a t =>
    unfold heapPopMin at h
    cases ht : heapPopMin t with
    | none => simp [ht] at h
    | some pr =>
      obtain ⟨q0, qr⟩ := pr
      simp only [ht] at h
      by_cases hle : a.priority ≤ q0.priority
      · rw [if_pos hle] at h; cases h
      · rw [if_neg hle] at h; cases h

/-- The remainder of a `pop_min` is drawn from the heap. -/
theorem heapPopMin_subset :
    ∀ {l : List FlatPacket} {p : FlatPacket} {r : List FlatPacket},
      heapPopMin l = some (p, r) → ∀ q ∈ r, q ∈ l := by
  intro l
  induction l with
  | nil => intro p r h; cases h
  | cons a t ih =>
    intro p r h q hq
    unfold heapPopMin at h
    cases ht : heapPopMin t with
    | none =>
      simp only [ht, Option.some.injEq, Prod.mk.injEq] at h
      obtain ⟨-, hr⟩ := h
      subst hr
      cases hq
    | some pr =>
      obtain ⟨q0, qr⟩ := pr
      simp only [ht] at h
      by_cases hle : a.priority ≤ q0.priority
      · rw [if_pos hle] at h
        simp only [Option.some.injEq, Prod.mk.injEq] at h
        obtain ⟨-, hr⟩ := h
        subst hr
        exact List.mem_cons_of_mem a hq
      · rw [if_neg hle] at h
        simp only [Option.some.injEq, Prod.mk.injEq] at h
        obtain ⟨-, hr⟩ := h
        subst hr
        rcases List.mem_cons.mp hq with rfl | hq'
        · exact List.mem_cons_self _ _
        · exact List.mem_cons_of_mem _ (ih ht q hq')

/-- Every heap element is the popped minimum or part of the remainder. -/
theorem heapPopMin_split :
    ∀ {l : List FlatPacket} {p : FlatPacket} {r : List FlatPacket},
      heapPopMin l = some (p, r) → ∀ q ∈ l, q = p ∨ q ∈ r := by
  intro l
  induction l with
  | nil => intro p r h; cases h
  | cons a t ih =>
    intro p r h q hq
    unfold heapPopMin at h
    cases ht : heapPopMin t with
    | none =>
      simp only [ht, Option.some.injEq, Prod.mk.injEq] at h
      obtain ⟨hp, hr⟩ := h
      subst hp
      subst hr
      rcases List.mem_cons.mp hq with rfl | hq'
      · exact Or.inl rfl
      · rw [heapPopMinEqNone ht] at hq'
        cases hq'
    | some pr =>
      obtain ⟨q0, qr⟩ := pr
      simp only [ht] at h
      by_cases hle : a.priority ≤ q0.priority
      · rw [if_pos hle] at h
        simp only [Option.some.injEq, Prod.mk.injEq] at h
        obtain ⟨hp, hr⟩ := h
        subst hp
        subst hr
        rcases List.mem_cons.mp hq with rfl | hq'
        · exact Or.inl rfl
        · exact Or.inr hq'
      · rw [if_neg hle] at h
        simp only [Option.some.injEq, Prod.mk.injEq] at h
        obtain ⟨hp, hr⟩ := h
        subst hp
        subst hr
        rcases List.mem_cons.mp hq with rfl | hq'
        · exact Or.inr (List.mem_cons_self _ _)
        · rcases ih ht q hq' with rfl | hq''
          · exact Or.inl rfl
          · exact Or.inr (List.mem_cons_of_mem a hq'')

/-- The popped packet has minimal priority among the remainder. -/
theorem heapPopMin_min :
    ∀ {l : List FlatPacket} {p : FlatPacket} {r : List FlatPacket},
      heapPopMin l = some (p, r) → ∀ q ∈ r, p.priority ≤ q.priority := by
  intro l
  induction l with
  | nil => intro p r h; cases h
  | cons a t ih =>
    intro p r h q hq
    unfold heapPopMin at h
    cases ht : heapPopMin t with
    | none =>
      simp only [ht, Option.some.injEq, Prod.mk.injEq] at h
      obtain ⟨hp, hr⟩ := h
      subst hp
      subst hr
      cases hq
    | some pr =>
      obtain ⟨q0, qr⟩ := pr
      simp only [ht] at h
      by_cases hle : a.priority ≤ q0.priority
      · rw [if_pos hle] at h
        simp only [Option.some.injEq, Prod.mk.injEq] at h
        obtain ⟨hp, hr⟩ := h
        subst hp
        subst hr
        rcases heapPopMin_split ht q hq with rfl | hq'
        · exact hle
        · exact Nat.le_trans hle (ih ht q hq')
      · rw [if_neg hle] at h
        simp only [Option.some.injEq, Prod.mk.injEq] at h
        obtain ⟨hp, hr⟩ := h
        subst hp
        subst hr
        rcases List.mem_cons.mp hq with rfl | hq'
        · omega
        · exact ih ht q hq'

/-- Removing a packet from its batch preserves correct back-references. -/
theorem removePacket_ownersOk {buffer : FlatBuffer} {pkt : FlatPacket}
    (h : ∀ b ∈ buffer, ∀ q ∈ b.2, q.batchId = b.1) :
    ∀ b ∈ removePacketFromBatch buffer pkt, ∀ q ∈ b.2, q.batchId = b.1 := by
  intro b hb q hq
  unfold removePacketFromBatch at hb
  obtain ⟨b0, hb0, rfl⟩ := List.mem_map.mp hb
  by_cases hid : b0.1 = pkt.batchId
  · simp only [if_pos hid] at hq ⊢
    exact h b0 hb0 q (List.mem_filter.mp hq).1
  · simp only [if_neg hid] at hq ⊢
    exact h b0 hb0 q hq

/-- After popping `pkt` off the heap and removing it from its batch, every
packet still stored in the buffer is in the heap remainder. -/
theorem removePacket_sync {buffer : FlatBuffer} {index : List FlatPacket}
    {pkt : FlatPacket} {rest : List FlatPacket}
    (hpop : heapPopMin index = some (pkt, rest))
    (hOwn : ∀ b ∈ buffer, ∀ q ∈ b.2, q.batchId = b.1)
    (hSync : ∀ b ∈ buffer, ∀ q ∈ b.2, q ∈ index) :
    ∀ b ∈ removePacketFromBatch buffer pkt, ∀ q ∈ b.2, q ∈ rest := by
  intro b hb q hq
  unfold removePacketFromBatch at hb
  obtain ⟨b0, hb0, rfl⟩ := List.mem_map.mp hb
  by_cases hid : b0.1 = pkt.batchId
  · simp only [if_pos hid] at hq
    obtain ⟨hq1, hq2⟩ := List.mem_filter.mp hq
    have hqidx : q.pktIndex ≠ pkt.pktIndex := by simpa using hq2
    rcases heapPopMin_split hpop q (hSync b0 hb0 q hq1) with rfl | hqr
    · exact absurd rfl hqidx
    · exact hqr
  · simp only [if_neg hid] at hq
    rcases heapPopMin_split hpop q (hSync b0 hb0 q hq) with rfl | hqr
    · exact absurd (hOwn b0 hb0 q hq).symm hid
    · exact hqr

/-- Loop invariant of `remove_batches_by_priority`: packets still in the
buffer afterwards have priority at least that of every packet evicted. -/
theorem removeBatchesGo_priority :
    ∀ (fuel : Nat) (buffer : FlatBuffer) (index : List FlatPacket)
      (num cnt : Nat) (evicted buffer' index' evicted' : _)
      (hrun : removeBatchesGo fuel buffer index num cnt evicted =
        (buffer', index', evicted'))
      (hOwn : ∀ b ∈ buffer, ∀ q ∈ b.2, q.batchId = b.1)
      (hSync : ∀ b ∈ buffer, ∀ q ∈ b.2, q ∈ index)
      (hEv : ∀ e ∈ evicted, ∀ q ∈ index, e.priority ≤ q.priority),
      ∀ b ∈ buffer', ∀ p ∈ b.2, ∀ e ∈ evicted', e.priority ≤ p.priority := by
  intro fuel
  induction fuel with
  | zero =>
    intro buffer index num cnt evicted buffer' index' evicted' hrun hOwn hSync
      hEv b hb p hp e he
    simp only [removeBatchesGo, Prod.mk.injEq] at hrun
    obtain ⟨hb', hi', he'⟩ := hrun
    subst hb'
    subst he'
    exact hEv e he p (hSync b (List.mem_filter.mp hb).1 p hp)
  | succ fuel ih =>
    intro buffer index num cnt evicted buffer' index' evicted' hrun hOwn hSync
      hEv b hb p hp e he
    cases hpop : heapPopMin index with
    | none =>
      simp only [removeBatchesGo, hpop, Prod.mk.injEq] at hrun
      obtain ⟨hb', hi', he'⟩ := hrun
      subst hb'
      subst he'
      exact hEv e he p (hSync b (List.mem_filter.mp hb).1 p hp)
    | some pr =>
      obtain ⟨pkt, rest⟩ := pr
      simp only [removeBatchesGo, hpop] at hrun
      have hOwn' := @removePacket_ownersOk buffer pkt hOwn
      have hSync' := removePacket_sync hpop hOwn hSync
      have hEv' : ∀ e ∈ evicted ++ [pkt], ∀ q ∈ rest,
          e.priority ≤ q.priority := by
        intro e he q hq
        rcases List.mem_append.mp he with he | he
        · exact hEv e he q (heapPopMin_subset hpop q hq)
        · simp only [List.mem_singleton] at he
          subst he
          exact heapPopMin_min hpop q hq
      by_cases hE : batchOfPacketIsEmpty (removePacketFromBatch buffer pkt) pkt =
          true
      · rw [if_pos hE] at hrun
        by_cases hnum : num ≤ cnt + 1
        · rw [if_pos hnum] at hrun
          simp only [Prod.mk.injEq] at hrun
          obtain ⟨hb', hi', he'⟩ := hrun
          subst hb'
          subst he'
          exact hEv' e he p
            (hSync' b (List.mem_filter.mp hb).1 p hp)
        · rw [if_neg hnum] at hrun
          exact ih _ _ _ _ _ _ _ _ hrun hOwn' hSync' hEv' b hb p hp e he
      · rw [if_neg hE] at hrun
        exact ih _ _ _ _ _ _ _ _ hrun hOwn' hSync' hEv' b hb p hp e he

/-- C7.  Eviction preserves priorities: after `insert_batch` returns, every
packet remaining in the buffer has priority at least that of every packet
evicted during the call.  The hypotheses state the buffer/heap consistency
`insert_batch` is called under: packet back-references point to their owning
batch, and the heap indexes every stored packet (the new batch's packets were
pushed by `make_batch`). -/
theorem claim_C7_buffer_eviction_invariant (buffer : FlatBuffer)
    (index : List FlatPacket) (batch_limit : Nat) (batch : Nat × FlatBatch)
    (buffer' : FlatBuffer) (index' : List FlatPacket)
    (evicted : List FlatPacket)
    (hrun : insert_batch buffer index batch_limit batch =
      (buffer', index', evicted))
    (hOwn : ∀ b ∈ buffer ++ [batch], ∀ q ∈ b.2, q.batchId = b.1)
    (hSync : ∀ b ∈ buffer ++ [batch], ∀ q ∈ b.2, q ∈ index) :
    ∀ b ∈ buffer', ∀ p ∈ b.2, ∀ e ∈ evicted, e.priority ≤ p.priority := by
  intro b hb p hp e he
  unfold insert_batch at hrun
  by_cases hempty : batch.2.isEmpty = true
  · rw [if_pos hempty] at hrun
    simp only [Prod.mk.injEq] at hrun
    obtain ⟨-, -, he'⟩ := hrun
    subst he'
    cases he
  · rw [if_neg hempty] at hrun
    by_cases hnum : 0 < (buffer ++ [batch]).length - batch_limit
    · rw [if_pos hnum] at hrun
      unfold remove_batches_by_priority at hrun
      exact removeBatchesGo_priority index.length (buffer ++ [batch]) index
        ((buffer ++ [batch]).length - batch_limit) 0 [] buffer' index' evicted
        hrun hOwn hSync (fun e he => absurd he (List.not_mem_nil e))
        b hb p hp e he
    · rw [if_neg hnum] at hrun
      simp only [Prod.mk.injEq] at hrun
      obtain ⟨-, -, he'⟩ := hrun
      subst he'
      cases he

theorem claim_C7_buffer_eviction_invariant_witness :
    insert_batch [(0, [⟨1, 0, 0⟩])] [⟨1, 0, 0⟩, ⟨5, 0, 1⟩] 1 (1, [⟨5, 0, 1⟩]) =
        ([(1, [⟨5, 0, 1⟩])], [⟨5, 0, 1⟩], [⟨1, 0, 0⟩]) ∧
      ∀ b ∈ [((1 : Nat), [(⟨5, 0, 1⟩ : FlatPacket)])], ∀ p ∈ b.2,
        ∀ e ∈ [(⟨1, 0, 0⟩ : FlatPacket)], e.priority ≤ p.priority :=
  ⟨rfl,
   claim_C7_buffer_eviction_invariant [(0, [⟨1, 0, 0⟩])] [⟨1, 0, 0⟩, ⟨5, 0, 1⟩]
     1 (1, [⟨5, 0, 1⟩]) [(1, [⟨5, 0, 1⟩])] [⟨5, 0, 1⟩] [⟨1, 0, 0⟩] rfl
     (by decide) (by decide)⟩

/-- Association-list lookups return stored bindings. -/
theorem lookup_mem : ∀ {m : List (Nat × Nat)} {k u : Nat},
    m.lookup k = some u → (k, u) ∈ m := by
  intro m
  induction m with
  | nil => intro k u h; cases h
  | cons a t ih =>
    intro k u h
    obtain ⟨a1, a2⟩ := a
    unfold List.lookup at h
    by_cases hk : k = a1
    · subst hk
      simp only [beq_self_eq_true, if_pos] at h
      cases h
      exact List.mem_cons_self _ _
    · have hne : (k == a1) = false := beq_false_of_ne hk
      simp only [hne] at h
      exact List.mem_cons_of_mem _ (ih h)

/-- Filtering out a present element that fails the predicate shortens the
list. -/
theorem lengthFilterLtOfMem {α : Type} (p : α → Bool) (l : List α) (x : α)
    (hx : x ∈ l) (hpx : p x = false) : (l.filter p).length < l.length := by
  induction l with
  | nil => cases hx
  | cons a t ih =>
    rw [List.filter_cons]
    rcases List.mem_cons.mp hx with rfl | hmem
    · rw [hpx]
      simp only [List.length_cons]
      exact Nat.lt_succ_of_le (List.length_filter_le p t)
    · cases hpa : p a
      · rw [if_neg Bool.false_ne_true]
        simp only [List.length_cons]
        exact Nat.lt_succ_of_lt (ih hmem)
      · rw [if_pos rfl]
        simp only [List.length_cons]
        exact Nat.succ_lt_succ (ih hmem)

/-- Graph construction, write-account pass: the maps record only accounts of
window transactions, and no edge ever points at a transaction `T` whose
accounts are disjoint from every other window transaction. -/
theorem addWriteAccounts_inv (window : List Scheduler.SpecTx)
    (T : Scheduler.SpecTx)
    (hT : ∀ u ∈ window, u = T ∨
      (u.txid ≠ T.txid ∧ ∀ k ∈ u.accounts, k ∉ T.accounts)) :
    ∀ (ks : List Nat) (t : Scheduler.SpecTx) (st : Scheduler.GraphState),
      t ∈ window → (∀ k ∈ ks, k ∈ t.accounts) →
      (∀ e ∈ st.lastWriter, ∃ tx ∈ window, tx.txid = e.2 ∧ e.1 ∈ tx.accounts) →
      (∀ e ∈ st.lastToucher, ∃ tx ∈ window, tx.txid = e.2 ∧ e.1 ∈ tx.accounts) →
      (∀ e ∈ st.edges, e.2 ≠ T.txid) →
      (∀ e ∈ (Scheduler.addWriteAccounts t.txid ks st).lastWriter,
        ∃ tx ∈ window, tx.txid = e.2 ∧ e.1 ∈ tx.accounts) ∧
      (∀ e ∈ (Scheduler.addWriteAccounts t.txid ks st).lastToucher,
        ∃ tx ∈ window, tx.txid = e.2 ∧ e.1 ∈ tx.accounts) ∧
      (∀ e ∈ (Scheduler.addWriteAccounts t.txid ks st).edges, e.2 ≠ T.txid) := by
  intro ks
  induction ks with
  | nil =>
    intro t st ht hks hW hTo hE
    exact ⟨hW, hTo, hE⟩
  | cons k ks ih =>
    intro t st ht hks hW hTo hE
    have hks' : ∀ k' ∈ ks, k' ∈ t.accounts :=
      fun k' hk' => hks k' (List.mem_cons_of_mem _ hk')
    have hkacc : k ∈ t.accounts := hks k (List.mem_cons_self _ _)
    have hmaps :
        ∀ st1 : Scheduler.GraphState,
          (∀ e ∈ st1.lastWriter,
            ∃ tx ∈ window, tx.txid = e.2 ∧ e.1 ∈ tx.accounts) →
          ∀ e ∈ ((k, t.txid) :: st1.lastWriter),
            ∃ tx ∈ window, tx.txid = e.2 ∧ e.1 ∈ tx.accounts := by
      intro st1 h1 e he
      rcases List.mem_cons.mp he with rfl | he'
      · exact ⟨t, ht, rfl, hkacc⟩
      · exact h1 e he'
    have hmaps' :
        ∀ st1 : Scheduler.GraphState,
          (∀ e ∈ st1.lastToucher,
            ∃ tx ∈ window, tx.txid = e.2 ∧ e.1 ∈ tx.accounts) →
          ∀ e ∈ ((k, t.txid) :: st1.lastToucher),
            ∃ tx ∈ window, tx.txid = e.2 ∧ e.1 ∈ tx.accounts := by
      intro st1 h1 e he
      rcases List.mem_cons.mp he with rfl | he'
      · exact ⟨t, ht, rfl, hkacc⟩
      · exact h1 e he'
    cases hlk : st.lastToucher.lookup k with
    | none =>
      simp only [Scheduler.addWriteAccounts, hlk]
      exact ih t _ ht hks' (hmaps st hW) (hmaps' st hTo) hE
    | some u =>
      by_cases hu : u ≠ t.txid
      · simp only [Scheduler.addWriteAccounts, hlk, if_pos hu]
        refine ih t _ ht hks' (hmaps _ hW) (hmaps' _ hTo) ?_
        intro e he
        rcases List.mem_cons.mp he with rfl | he'
        · show t.txid ≠ T.txid
          obtain ⟨tx, htx, htxid, hktx⟩ := hTo (k, u) (lookup_mem hlk)
          rcases hT t ht with h1 | ⟨hne, -⟩
          · exfalso
            rcases hT tx htx with h2 | ⟨hne2, hdisj⟩
            · apply hu
              have h3 : u = tx.txid := htxid.symm
              rw [h3, h2, h1]
            · exact hdisj k hktx (h1 ▸ hkacc)
          · exact hne
        · exact hE e he'
      · simp only [Scheduler.addWriteAccounts, hlk, if_neg hu]
        exact ih t _ ht hks' (hmaps st hW) (hmaps' st hTo) hE

/-- Graph construction, read-account pass: same invariants. -/
theorem addReadAccounts_inv (window : List Scheduler.SpecTx)
    (T : Scheduler.SpecTx)
    (hT : ∀ u ∈ window, u = T ∨
      (u.txid ≠ T.txid ∧ ∀ k ∈ u.accounts, k ∉ T.accounts)) :
    ∀ (ks : List Nat) (t : Scheduler.SpecTx) (st : Scheduler.GraphState),
      t ∈ window → (∀ k ∈ ks, k ∈ t.accounts) →
      (∀ e ∈ st.lastWriter, ∃ tx ∈ window, tx.txid = e.2 ∧ e.1 ∈ tx.accounts) →
      (∀ e ∈ st.lastToucher, ∃ tx ∈ window, tx.txid = e.2 ∧ e.1 ∈ tx.accounts) →
      (∀ e ∈ st.edges, e.2 ≠ T.txid) →
      (∀ e ∈ (Scheduler.addReadAccounts t.txid ks st).lastWriter,
        ∃ tx ∈ window, tx.txid = e.2 ∧ e.1 ∈ tx.accounts) ∧
      (∀ e ∈ (Scheduler.addReadAccounts t.txid ks st).lastToucher,
        ∃ tx ∈ window, tx.txid = e.2 ∧ e.1 ∈ tx.accounts) ∧
      (∀ e ∈ (Scheduler.addReadAccounts t.txid ks st).edges, e.2 ≠ T.txid) := by
  intro ks
  induction ks with
  | nil =>
    intro t st ht hks hW hTo hE
    exact ⟨hW, hTo, hE⟩
  | cons k ks ih =>
    intro t st ht hks hW hTo hE
    have hks' : ∀ k' ∈ ks, k' ∈ t.accounts :=
      fun k' hk' => hks k' (List.mem_cons_of_mem _ hk')
    have hkacc : k ∈ t.accounts := hks k (List.mem_cons_self _ _)
    have hmaps' :
        ∀ st1 : Scheduler.GraphState,
          (∀ e ∈ st1.lastToucher,
            ∃ tx ∈ window, tx.txid = e.2 ∧ e.1 ∈ tx.accounts) →
          ∀ e ∈ ((k, t.txid) :: st1.lastToucher),
            ∃ tx ∈ window, tx.txid = e.2 ∧ e.1 ∈ tx.accounts := by
      intro st1 h1 e he
      rcases List.mem_cons.mp he with rfl | he'
      · exact ⟨t, ht, rfl, hkacc⟩
      · exact h1 e he'
    cases hlk : st.lastWriter.lookup k with
    | none =>
      simp only [Scheduler.addReadAccounts, hlk]
      exact ih t _ ht hks' hW (hmaps' st hTo) hE
    | some u =>
      by_cases hu : u ≠ t.txid
      · simp only [Scheduler.addReadAccounts, hlk, if_pos hu]
        refine ih t _ ht hks' hW (hmaps' _ hTo) ?_
        intro e he
        rcases List.mem_cons.mp he with rfl | he'
        · show t.txid ≠ T.txid
          obtain ⟨tx, htx, htxid, hktx⟩ := hW (k, u) (lookup_mem hlk)
          rcases hT t ht with h1 | ⟨hne, -⟩
          · exfalso
            rcases hT tx htx with h2 | ⟨hne2, hdisj⟩
            · apply hu
              have h3 : u = tx.txid := htxid.symm
              rw [h3, h2, h1]
            · exact hdisj k hktx (h1 ▸ hkacc)
          · exact hne
        · exact hE e he'
      · simp only [Scheduler.addReadAccounts, hlk, if_neg hu]
        exact ih t _ ht hks' hW (hmaps' st hTo) hE

/-- One transaction of graph construction preserves the invariants. -/
theorem graphStep_inv (window : List Scheduler.SpecTx) (T : Scheduler.SpecTx)
    (hT : ∀ u ∈ window, u = T ∨
      (u.txid ≠ T.txid ∧ ∀ k ∈ u.accounts, k ∉ T.accounts))
    (t : Scheduler.SpecTx) (st : Scheduler.GraphState) (ht : t ∈ window)
    (hW : ∀ e ∈ st.lastWriter, ∃ tx ∈ window, tx.txid = e.2 ∧ e.1 ∈ tx.accounts)
    (hTo : ∀ e ∈ st.lastToucher, ∃ tx ∈ window, tx.txid = e.2 ∧ e.1 ∈ tx.accounts)
    (hE : ∀ e ∈ st.edges, e.2 ≠ T.txid) :
    (∀ e ∈ (Scheduler.graphStep st t).lastWriter,
      ∃ tx ∈ window, tx.txid = e.2 ∧ e.1 ∈ tx.accounts) ∧
    (∀ e ∈ (Scheduler.graphStep st t).lastToucher,
      ∃ tx ∈ window, tx.txid = e.2 ∧ e.1 ∈ tx.accounts) ∧
    (∀ e ∈ (Scheduler.graphStep st t).edges, e.2 ≠ T.txid) := by
  unfold Scheduler.graphStep
  obtain ⟨hW1, hTo1, hE1⟩ := addWriteAccounts_inv window T hT t.writes t st ht
    (fun k hk => List.mem_append_left _ hk) hW hTo hE
  exact addReadAccounts_inv window T hT t.reads t _ ht
    (fun k hk => List.mem_append_right _ hk) hW1 hTo1 hE1

/-- A transaction whose accounts are disjoint from every other window
transaction receives no incoming edge during graph construction. -/
theorem buildEdges_no_incoming (window : List Scheduler.SpecTx)
    (T : Scheduler.SpecTx)
    (hT : ∀ u ∈ window, u = T ∨
      (u.txid ≠ T.txid ∧ ∀ k ∈ u.accounts, k ∉ T.accounts)) :
    ∀ e ∈ Scheduler.buildEdges window, e.2 ≠ T.txid := by
  have main : ∀ (l : List Scheduler.SpecTx), (∀ t ∈ l, t ∈ window) →
      ∀ st : Scheduler.GraphState,
      (∀ e ∈ st.lastWriter, ∃ tx ∈ window, tx.txid = e.2 ∧ e.1 ∈ tx.accounts) →
      (∀ e ∈ st.lastToucher, ∃ tx ∈ window, tx.txid = e.2 ∧ e.1 ∈ tx.accounts) →
      (∀ e ∈ st.edges, e.2 ≠ T.txid) →
      ∀ e ∈ (l.foldl Scheduler.graphStep st).edges, e.2 ≠ T.txid := by
    intro l
    induction l with
    | nil => intro _ st _ _ hE; exact hE
    | cons t rest ih =>
      intro hl st hW hTo hE
      rw [List.foldl_cons]
      obtain ⟨hW1, hTo1, hE1⟩ := graphStep_inv window T hT t st
        (hl t (List.mem_cons_self _ _)) hW hTo hE
      exact ih (fun u hu => hl u (List.mem_cons_of_mem _ hu)) _ hW1 hTo1 hE1
  exact main window (fun t ht => ht) {}
    (fun e he => absurd he (List.not_mem_nil e))
    (fun e he => absurd he (List.not_mem_nil e))
    (fun e he => absurd he (List.not_mem_nil e))

/-- The picked entry belongs to the list. -/
theorem pickHighestPriority_mem :
    ∀ {l : List Scheduler.SpecTx} {t : Scheduler.SpecTx},
      Scheduler.pickHighestPriority l = some t → t ∈ l := by
  intro l
  induction l with
  | nil => intro t h; cases h
  | cons a rest ih =>
    intro t h
    unfold Scheduler.pickHighestPriority at h
    cases hp : Scheduler.pickHighestPriority rest with
    | none =>
      simp only [hp, Option.some.injEq] at h
      subst h
      exact List.mem_cons_self _ _
    | some u =>
      simp only [hp] at h
      by_cases hlt : a.priority < u.priority
      · rw [if_pos hlt] at h
        cases h
        exact List.mem_cons_of_mem _ (ih hp)
      · rw [if_neg hlt] at h
        cases h
        exact List.mem_cons_self _ _

/-- Picking from a non-empty list succeeds. -/
theorem pickHighestPriority_isSome {l : List Scheduler.SpecTx} (h : l ≠ []) :
    ∃ t, Scheduler.pickHighestPriority l = some t := by
  cases l with
  | nil => exact absurd rfl h
  | cons a rest =>
    unfold Scheduler.pickHighestPriority
    cases hp : Scheduler.pickHighestPriority rest with
    | none => exact ⟨a, by simp only [hp]⟩
    | some u =>
      simp only [hp]
      by_cases hlt : a.priority < u.priority
      · exact ⟨u, by rw [if_pos hlt]⟩
      · exact ⟨a, by rw [if_neg hlt]⟩

/-- The dispatch loop only ever adds to the dispatched list. -/
theorem dispatchGo_dispatched_mono :
    ∀ (fuel : Nat) (remaining : List Scheduler.SpecTx)
      (edges : List (Nat × Nat)) (held dispatched unschedulable : List Nat)
      (x : Nat), x ∈ dispatched →
      x ∈ (Scheduler.dispatchGo fuel remaining edges held dispatched
        unschedulable).1 := by
  intro fuel
  induction fuel with
  | zero => intro _ _ _ _ _ _ hx; exact hx
  | succ fuel ih =>
    intro remaining edges held dispatched unsch x hx
    cases hp : Scheduler.pickHighestPriority (Scheduler.readyTxs remaining edges)
      with
    | none => simp only [Scheduler.dispatchGo, hp]; exact hx
    | some t =>
      simp only [Scheduler.dispatchGo, hp]
      by_cases hc : Scheduler.conflictsWithHeld held t = true
      · rw [if_pos hc]
        exact ih _ _ _ _ _ x hx
      · rw [if_neg hc]
        exact ih _ _ _ _ _ x (List.mem_cons_of_mem _ hx)

/-- The dispatch loop dispatches every transaction with no incoming edge
whose accounts never conflict with held locks; in particular a fully
non-contending transaction. -/
theorem dispatchGo_dispatches_tracer (T : Scheduler.SpecTx) :
    ∀ (fuel : Nat) (remaining : List Scheduler.SpecTx)
      (edges : List (Nat × Nat)) (held dispatched unschedulable : List Nat),
      remaining.length ≤ fuel →
      T ∈ remaining →
      (∀ e ∈ edges, e.2 ≠ T.txid) →
      (∀ k ∈ held, k ∉ T.accounts) →
      (∀ u ∈ remaining, u = T ∨
        (u.txid ≠ T.txid ∧ ∀ k ∈ u.accounts, k ∉ T.accounts)) →
      T.txid ∈ (Scheduler.dispatchGo fuel remaining edges held dispatched
        unschedulable).1 := by
  intro fuel
  induction fuel with
  | zero =>
    intro remaining edges held dispatched unsch hlen hTmem hE hH hRem
    rw [List.length_eq_zero.mp (Nat.le_zero.mp hlen)] at hTmem
    cases hTmem
  | succ fuel ih =>
    intro remaining edges held dispatched unsch hlen hTmem hE hH hRem
    have hTready : T ∈ Scheduler.readyTxs remaining edges := by
      unfold Scheduler.readyTxs
      refine List.mem_filter.mpr ⟨hTmem, ?_⟩
      rw [List.all_eq_true]
      intro e he
      simpa using hE e he
    obtain ⟨t, hpick⟩ := pickHighestPriority_isSome
      (l := Scheduler.readyTxs remaining edges)
      (fun hnil => by rw [hnil] at hTready; cases hTready)
    have htmem : t ∈ remaining :=
      (List.mem_filter.mp (pickHighestPriority_mem hpick)).1
    simp only [Scheduler.dispatchGo, hpick]
    by_cases htx : t.txid = T.txid
    · have ht' : t = T := by
        rcases hRem t htmem with h | ⟨hne, -⟩
        · exact h
        · exact absurd htx hne
      subst ht'
      have hcf : Scheduler.conflictsWithHeld held t = false := by
        unfold Scheduler.conflictsWithHeld
        by_contra hcon
        rw [Bool.not_eq_false, List.any_eq_true] at hcon
        obtain ⟨k, hk, hkheld⟩ := hcon
        exact hH k (by simpa using hkheld) hk
      rw [if_neg (by rw [hcf]; exact Bool.false_ne_true)]
      exact dispatchGo_dispatched_mono _ _ _ _ _ _ _
        (List.mem_cons_self _ _)
    · have hlen' :
          (remaining.filter fun u => u.txid ≠ t.txid).length ≤ fuel := by
        have := lengthFilterLtOfMem (fun u => decide (u.txid ≠ t.txid))
          remaining t htmem (by simp)
        omega
      have hTmem' : T ∈ remaining.filter fun u => u.txid ≠ t.txid :=
        List.mem_filter.mpr ⟨hTmem, by simp; exact fun hh => htx hh.symm⟩
      have hRem' : ∀ u ∈ remaining.filter fun u => u.txid ≠ t.txid,
          u = T ∨ (u.txid ≠ T.txid ∧ ∀ k ∈ u.accounts, k ∉ T.accounts) :=
        fun u hu => hRem u (List.mem_filter.mp hu).1
      by_cases hc : Scheduler.conflictsWithHeld held t = true
      · rw [if_pos hc]
        exact ih _ _ _ _ _ hlen' hTmem' hE hH hRem'
      · rw [if_neg hc]
        refine ih _ _ _ _ _ hlen' hTmem' ?_ ?_ hRem'
        · intro e he
          exact hE e (List.mem_filter.mp he).1
        · intro k hk
          rcases List.mem_append.mp hk with hk | hk
          · exact hH k hk
          · rcases hRem t htmem with h | ⟨-, hdisj⟩
            · exact absurd (congrArg Scheduler.SpecTx.txid h) htx
            · exact hdisj k hk

/-- C9.  Tracer fairness: if the window contains a transaction `T` whose
account set intersects no other window transaction's — in particular a window
of exactly one non-contending transaction plus `N` mutually contending ones —
then the schedule pass dispatches `T`, regardless of `T`'s priority. -/
theorem claim_C9_tracer_fairness (window : List Scheduler.SpecTx)
    (T : Scheduler.SpecTx) (hTmem : T ∈ window)
    (hT : ∀ u ∈ window, u = T ∨
      (u.txid ≠ T.txid ∧ ∀ k ∈ u.accounts, k ∉ T.accounts)) :
    T.txid ∈ (Scheduler.schedulePass window).1 := by
  unfold Scheduler.schedulePass
  exact dispatchGo_dispatches_tracer T window.length window
    (Scheduler.buildEdges window) [] [] [] (Nat.le_refl _) hTmem
    (buildEdges_no_incoming window T hT)
    (fun k hk => absurd hk (List.not_mem_nil k)) hT

theorem claim_C9_tracer_fairness_witness :
    (⟨0, 1, [0], []⟩ : Scheduler.SpecTx) ∈
        [(⟨1, 10, [5], []⟩ : Scheduler.SpecTx), ⟨2, 9, [5], []⟩,
          ⟨0, 1, [0], []⟩] ∧
      (0 : Nat) ∈ (Scheduler.schedulePass
        [⟨1, 10, [5], []⟩, ⟨2, 9, [5], []⟩, ⟨0, 1, [0], []⟩]).1 :=
  ⟨by decide,
   claim_C9_tracer_fairness
     [⟨1, 10, [5], []⟩, ⟨2, 9, [5], []⟩, ⟨0, 1, [0], []⟩]
     ⟨0, 1, [0], []⟩ (by decide) (by decide)⟩

end Solana
